import Mathlib

set_option maxRecDepth 8000
set_option maxHeartbeats 1600000

/-!
Shallow embedding of `src/get_forms.py` from the hubspot-chatbot-insights
repository, covering the paginated traversal engine
(`iter_form_submissions_old`), the identity/marker scheme
(`make_submission_key`, `extract_marker_key`, `extract_semantic_key`,
`build_canonical_fields`, `compute_dedupe_keys`,
`submission_to_note_html/text`), the HTTP retry layer (`hubspot_get`,
`create_note`), the per-contact dedup cache
(`list_note_ids_for_contact`, `batch_read_notes`,
`get_contact_existing_note_bodies`) and the note-creation driver loop of
`run_create_notes`.

Modelling conventions:
* Python strings are Lean `String`; Python byte-level behaviour (UTF-8,
  SHA-256) is implemented explicitly over `List Nat` bytes.
* Python dicts that the code builds key-by-key are insertion-ordered
  association lists (`PyDict`), with `dictSet` mirroring `d[k] = v`
  (update in place, append when new) and `dictGet` mirroring `d.get(k)`.
* Python sets are lists with membership-guarded insertion (`setAdd`).
* Machine integers do not occur; Python ints are `Int`/`Nat`, and the
  32-bit arithmetic inside SHA-256 is `Nat` reduced mod `2 ^ 32`.
* Side effects (network, stderr warnings, the JSONL ledger file) are
  modelled by explicit environment functions and by observable fields in
  returned records; timezone conversion (`datetime`/`ZoneInfo`) is an
  external collaborator modelled as a parameter `msToDay : Int → String`.
-/

/-- Python `str` whitespace characters used by `str.strip()` / `str.split()`
(ASCII subset; the note bodies and keys handled by the script are ASCII). -/
def pySpaceChar (c : Char) : Bool :=
  c == ' ' || c == '\t' || c == '\n' || c == '\r' || c == '\x0b' || c == '\x0c'

/-- Python `str.strip()`: drop leading and trailing whitespace. -/
def pyStrip (s : String) : String :=
  String.mk (((s.toList.dropWhile pySpaceChar).reverse.dropWhile pySpaceChar).reverse)

/-- Python `str.lower()` (ASCII letters, as used by the script). -/
def pyLower (s : String) : String :=
  String.mk (s.toList.map Char.toLower)

/-- Helper for Python `str.split()` with no separator: accumulate
whitespace-separated words. -/
def pySplitWsAux : List Char → List Char → List String → List String
  | [], cur, acc =>
      (if cur.isEmpty then acc else String.mk cur.reverse :: acc).reverse
  | c :: cs, cur, acc =>
      if pySpaceChar c then
        pySplitWsAux cs [] (if cur.isEmpty then acc else String.mk cur.reverse :: acc)
      else
        pySplitWsAux cs (c :: cur) acc

/-- Python `str.split()` with no separator: whitespace runs, no empty parts. -/
def pySplitWs (s : String) : List String :=
  pySplitWsAux s.toList [] []

/-- Python `' '.join(parts)`. -/
def joinSpace (parts : List String) : String :=
  String.intercalate " " parts

def splitCharGo (sep : Char) : List Char → List Char → List String
  | [], cur => [String.mk cur.reverse]
  | c :: cs, cur =>
      if c = sep then String.mk cur.reverse :: splitCharGo sep cs []
      else splitCharGo sep cs (c :: cur)

/-- Python `s.split(sep)` for a one-character separator (empty parts
kept). -/
def splitChar (sep : Char) (s : String) : List String :=
  splitCharGo sep s.toList []

/-- Python `s.startswith(pre)`. -/
def strStarts (s pre : String) : Bool :=
  s.toList.take pre.toList.length == pre.toList

def insertLe {α : Type} (le : α → α → Bool) (x : α) : List α → List α
  | [] => [x]
  | y :: ys => if le x y && ! le y x then x :: y :: ys else y :: insertLe le x ys

/-- Stable sort by a total preorder, as Python `sorted` (insertion after
existing equal elements preserves the input order of ties). -/
def stableSortBy {α : Type} (le : α → α → Bool) (l : List α) : List α :=
  l.foldl (fun acc x => insertLe le x acc) []

/-- Python `''.join(parts)` (right fold; concatenation in list order). -/
def strJoin (parts : List String) : String :=
  parts.foldr (fun a b => a ++ b) ""

/-- Python `'\n'.join(parts)`. -/
def joinNl : List String → String
  | [] => ""
  | [x] => x
  | x :: y :: rest => x ++ "\n" ++ joinNl (y :: rest)

/-- Python `str.replace(old, new)`: replace all non-overlapping occurrences
left to right (`old` nonempty in every use in the script). -/
def strReplaceGo (old new : List Char) : Nat → List Char → List Char
  | 0, l => l
  | _, [] => []
  | fuel + 1, c :: cs =>
      if old ≠ [] ∧ (c :: cs).take old.length = old then
        new ++ strReplaceGo old new fuel ((c :: cs).drop old.length)
      else
        c :: strReplaceGo old new fuel cs

/-- Worker of `strReplace`: the fuel equals the input length, which the
recursion never exhausts because each step consumes at least one
character. -/
def strReplaceL (old new : List Char) (l : List Char) : List Char :=
  strReplaceGo old new l.length l

/-- Python `str.replace` on strings. -/
def strReplace (s old new : String) : String :=
  String.mk (strReplaceL old.toList new.toList s.toList)

/-- Does `l` contain `sub` as a contiguous sublist? (Python `sub in s`.) -/
def containsSubL (sub : List Char) : List Char → Bool
  | [] => sub.isEmpty
  | c :: cs => (List.take sub.length (c :: cs) == sub) || containsSubL sub cs

/-- Python `substr in s` (substring containment). -/
def strContainsSub (s sub : String) : Bool :=
  containsSubL sub.toList s.toList

/-- UTF-8 encoding of one character (as Python `str.encode('utf-8')`). -/
def utf8Bytes (c : Char) : List Nat :=
  let n := c.toNat
  if n < 128 then [n]
  else if n < 2048 then [192 + n / 64, 128 + n % 64]
  else if n < 65536 then [224 + n / 4096, 128 + (n / 64) % 64, 128 + n % 64]
  else [240 + n / 262144, 128 + (n / 4096) % 64, 128 + (n / 64) % 64, 128 + n % 64]

/-- UTF-8 encoding of a string as a byte list. -/
def strUtf8 (s : String) : List Nat :=
  (s.toList.map utf8Bytes).flatten

/-- Reduce to 32 bits (SHA-256 word arithmetic). -/
def w32 (n : Nat) : Nat := n % 4294967296

/-- 32-bit right rotation. -/
def rotr32 (x k : Nat) : Nat :=
  (x / 2 ^ k) + (x % 2 ^ k) * 2 ^ (32 - k)

/-- 32-bit bitwise complement (for `x < 2 ^ 32`). -/
def not32 (x : Nat) : Nat := 4294967295 - x

/-- SHA-256 `Ch` function. -/
def shaCh (x y z : Nat) : Nat := Nat.xor (Nat.land x y) (Nat.land (not32 x) z)

/-- SHA-256 `Maj` function. -/
def shaMaj (x y z : Nat) : Nat :=
  Nat.xor (Nat.xor (Nat.land x y) (Nat.land x z)) (Nat.land y z)

/-- SHA-256 big sigma 0. -/
def shaS0 (x : Nat) : Nat := Nat.xor (Nat.xor (rotr32 x 2) (rotr32 x 13)) (rotr32 x 22)

/-- SHA-256 big sigma 1. -/
def shaS1 (x : Nat) : Nat := Nat.xor (Nat.xor (rotr32 x 6) (rotr32 x 11)) (rotr32 x 25)

/-- SHA-256 small sigma 0. -/
def shaG0 (x : Nat) : Nat := Nat.xor (Nat.xor (rotr32 x 7) (rotr32 x 18)) (x / 2 ^ 3)

/-- SHA-256 small sigma 1. -/
def shaG1 (x : Nat) : Nat := Nat.xor (Nat.xor (rotr32 x 17) (rotr32 x 19)) (x / 2 ^ 10)

/-- SHA-256 round constants. -/
def shaK : List Nat :=
  [1116352408, 1899447441, 3049323471, 3921009573, 961987163, 1508970993,
   2453635748, 2870763221, 3624381080, 310598401, 607225278, 1426881987,
   1925078388, 2162078206, 2614888103, 3248222580, 3835390401, 4022224774,
   264347078, 604807628, 770255983, 1249150122, 1555081692, 1996064986,
   2554220882, 2821834349, 2952996808, 3210313671, 3336571891, 3584528711,
   113926993, 338241895, 666307205, 773529912, 1294757372, 1396182291,
   1695183700, 1986661051, 2177026350, 2456956037, 2730485921, 2820302411,
   3259730800, 3345764771, 3516065817, 3600352804, 4094571909, 275423344,
   430227734, 506948616, 659060556, 883997877, 958139571, 1322822218,
   1537002063, 1747873779, 1955562222, 2024104815, 2227730452, 2361852424,
   2428436474, 2756734187, 3204031479, 3329325298]

/-- SHA-256 initial hash state. -/
def shaH0 : List Nat :=
  [1779033703, 3144134277, 1013904242, 2773480762,
   1359893119, 2600822924, 528734635, 1541459225]

/-- Group a byte list into big-endian 32-bit words. -/
def bytesToWords : List Nat → List Nat
  | a :: b :: c :: d :: rest =>
      (a * 16777216 + b * 65536 + c * 256 + d) :: bytesToWords rest
  | _ => []

/-- Extend the 16-word schedule by `n` further words. -/
def shaExtend (ws : List Nat) : Nat → List Nat
  | 0 => ws
  | n + 1 =>
      let len := ws.length
      let next := w32 (shaG1 (ws.getD (len - 2) 0) + ws.getD (len - 7) 0 +
        shaG0 (ws.getD (len - 15) 0) + ws.getD (len - 16) 0)
      shaExtend (ws ++ [next]) n

/-- One SHA-256 compression round over the 8-word working state. -/
def shaRound (st : List Nat) (kw : Nat × Nat) : List Nat :=
  match st with
  | [a, b, c, d, e, f, g, h] =>
      let t1 := w32 (h + shaS1 e + shaCh e f g + kw.1 + kw.2)
      let t2 := w32 (shaS0 a + shaMaj a b c)
      [w32 (t1 + t2), a, b, c, w32 (d + t1), e, f, g]
  | other => other

/-- Compress one 64-byte block into the running hash state. -/
def shaCompress (H : List Nat) (block : List Nat) : List Nat :=
  let w := shaExtend (bytesToWords block) 48
  let st := (shaK.zip w).foldl shaRound H
  List.zipWith (fun x y => w32 (x + y)) H st

def chunk64Go : Nat → List Nat → List (List Nat)
  | 0, _ => []
  | _, [] => []
  | fuel + 1, c :: cs => ((c :: cs).take 64) :: chunk64Go fuel ((c :: cs).drop 64)

/-- Split a byte list into 64-byte blocks (the fuel equals the input
length, which each nonempty step strictly decreases). -/
def chunk64 (l : List Nat) : List (List Nat) :=
  chunk64Go l.length l

/-- SHA-256 padding: append `0x80`, zeros, and the 64-bit bit length. -/
def shaPad (msg : List Nat) : List Nat :=
  let L := msg.length
  let z := (64 + 56 - (L + 1) % 64) % 64
  let bits := 8 * L
  msg ++ [128] ++ List.replicate z 0 ++
    [bits / 2 ^ 56 % 256, bits / 2 ^ 48 % 256, bits / 2 ^ 40 % 256,
     bits / 2 ^ 32 % 256, bits / 2 ^ 24 % 256, bits / 2 ^ 16 % 256,
     bits / 2 ^ 8 % 256, bits % 256]

/-- SHA-256 of a byte list: final 8-word state. -/
def sha256Words (msg : List Nat) : List Nat :=
  (chunk64 (shaPad msg)).foldl shaCompress shaH0

/-- Lowercase hex digit. -/
def hexDigit (n : Nat) : Char :=
  "0123456789abcdef".toList.getD n '0'

/-- Lowercase 8-hex-digit rendering of a 32-bit word. -/
def hex8 (n : Nat) : String :=
  String.mk ((List.range 8).map (fun i => hexDigit (n / 16 ^ (7 - i) % 16)))

/-- Python `hashlib.sha256(s.encode('utf-8')).hexdigest()`. -/
def sha256hex (s : String) : String :=
  strJoin ((sha256Words (strUtf8 s)).map hex8)

/-- Insertion-ordered association list modelling a Python `dict`. `alSet`
mirrors `d[k] = v` (update in place, append when new). -/
def alSet {α : Type} : List (String × α) → String → α → List (String × α)
  | [], k, v => [(k, v)]
  | (k0, v0) :: rest, k, v =>
      if k0 = k then (k0, v) :: rest else (k0, v0) :: alSet rest k v

/-- Python `d.get(k)`. -/
def alGet {α : Type} : List (String × α) → String → Option α
  | [], _ => none
  | (k0, v0) :: rest, k => if k0 = k then some v0 else alGet rest k

/-- Python `k in d`. -/
def alContains {α : Type} (d : List (String × α)) (k : String) : Bool :=
  (alGet d k).isSome

/-- A Python `dict` with string keys and values. -/
abbrev PyDict := List (String × String)

/-- Python `d.get(k, default)`. -/
def dictGetD (d : PyDict) (k default : String) : String :=
  (alGet d k).getD default

/-- Python set modelled as a list with membership-guarded insertion. -/
def setAdd (s : List String) (x : String) : List String :=
  if x ∈ s then s else s ++ [x]

/-- Four-hex-digit rendering (for `\uXXXX` escapes). -/
def hex4 (n : Nat) : String :=
  String.mk ((List.range 4).map (fun i => hexDigit (n / 16 ^ (3 - i) % 16)))

/-- One-character escape of CPython `json.dumps` with default
`ensure_ascii=True`: printable ASCII other than quote and backslash is
literal, the usual short escapes apply, everything else is `\uXXXX`
(surrogate pairs above the BMP). -/
def jsonEscChar (c : Char) : String :=
  if c = '"' then "\\\""
  else if c = '\\' then "\\\\"
  else if c = '\n' then "\\n"
  else if c = '\r' then "\\r"
  else if c = '\t' then "\\t"
  else if c = '\x08' then "\\b"
  else if c = '\x0c' then "\\f"
  else if 32 ≤ c.toNat ∧ c.toNat ≤ 126 then String.mk [c]
  else if c.toNat < 65536 then "\\u" ++ hex4 c.toNat
  else
    let n := c.toNat - 65536
    "\\u" ++ hex4 (55296 + n / 1024) ++ "\\u" ++ hex4 (56320 + n % 1024)

/-- JSON rendering of a string (CPython `json.dumps` on a `str`). -/
def jsonStr (s : String) : String :=
  "\"" ++ strJoin (s.toList.map jsonEscChar) ++ "\""

/-- Keys of a dict sorted ascending, as `json.dumps(..., sort_keys=True)`
iterates them (dict keys are unique by construction). -/
def sortedKeys (d : PyDict) : List String :=
  stableSortBy (fun a b => decide (a ≤ b)) (d.map Prod.fst)

/-- JSON rendering of a string-valued dict with sorted keys and the
compact separators `(',', ':')`. -/
def jsonObjSorted (d : PyDict) : String :=
  "\x7b" ++
    String.intercalate "," ((sortedKeys d).map
      (fun k => jsonStr k ++ ":" ++ jsonStr (dictGetD d k ""))) ++ "\x7d"

/-- Characters CPython `urllib.parse` accepts inside a URL scheme. -/
def schemeChar (c : Char) : Bool :=
  c.isAlpha || c.isDigit || c == '+' || c == '-' || c == '.'

/-- Split a char list at the first occurrence of `c` (Python
`s.split(c, 1)` when it occurs). -/
def breakAtChar (c : Char) : List Char → Option (List Char × List Char)
  | [] => none
  | x :: xs =>
      if x = c then some ([], xs)
      else match breakAtChar c xs with
        | some (l, r) => some (x :: l, r)
        | none => none

/-- Result of `urllib.parse.urlparse`. -/
structure UrlParts where
  scheme : String
  netloc : String
  path : String
  params : String
  query : String
  fragment : String
deriving Repr, DecidableEq

/-- CPython `urllib.parse.urlsplit`/`urlparse` for the string subset this
script feeds it: scheme extracted when a leading `:` is preceded by an
alphabetic-led run of scheme characters, `//`-introduced netloc runs to
the next `/`, `?` or `#`, then the fragment splits at the first `#`, the
query at the first `?`, and `urlparse` finally splits params off the last
path segment at `;`. -/
def pyUrlparse (url : String) : UrlParts :=
  let cs := url.toList
  let schemeRest : String × List Char :=
    match breakAtChar ':' cs with
    | some (before, after) =>
        if before ≠ [] ∧ (before.headD 'a').isAlpha = true ∧ before.all schemeChar then
          (pyLower (String.mk before), after)
        else ("", cs)
    | none => ("", cs)
  let scheme := schemeRest.1
  let rest0 := schemeRest.2
  let netlocRest : String × List Char :=
    if rest0.take 2 = ['/', '/'] then
      let tail2 := rest0.drop 2
      let nl := tail2.takeWhile (fun c => ¬(c = '/' ∨ c = '?' ∨ c = '#'))
      (String.mk nl, tail2.drop nl.length)
    else ("", rest0)
  let netloc := netlocRest.1
  let rest1 := netlocRest.2
  let urlFrag : List Char × String :=
    match breakAtChar '#' rest1 with
    | some (b, a) => (b, String.mk a)
    | none => (rest1, "")
  let rest2 := urlFrag.1
  let fragment := urlFrag.2
  let urlQuery : List Char × String :=
    match breakAtChar '?' rest2 with
    | some (b, a) => (b, String.mk a)
    | none => (rest2, "")
  let rest3 := urlQuery.1
  let query := urlQuery.2
  let pathParams : String × String :=
    if rest3.contains ';' then
      if rest3.contains '/' then
        let afterSlash := (rest3.reverse.takeWhile (fun c => c ≠ '/')).reverse
        match breakAtChar ';' afterSlash with
        | some (b, a) =>
            (String.mk (rest3.take (rest3.length - afterSlash.length) ++ b), String.mk a)
        | none => (String.mk rest3, "")
      else
        match breakAtChar ';' rest3 with
        | some (b, a) => (String.mk b, String.mk a)
        | none => (String.mk rest3, "")
    else (String.mk rest3, "")
  { scheme := scheme, netloc := netloc, path := pathParams.1,
    params := pathParams.2, query := query, fragment := fragment }

/-- CPython `urllib.parse.urlunparse` (via `urlunsplit`). -/
def pyUrlunparse (u : UrlParts) : String :=
  let url0 := if u.params ≠ "" then u.path ++ ";" ++ u.params else u.path
  let url1 :=
    if u.netloc ≠ "" ∨ url0.toList.take 2 = ['/', '/'] then
      "//" ++ u.netloc ++
        (if url0 ≠ "" ∧ ¬ strStarts url0 "/" then "/" ++ url0 else url0)
    else url0
  let url2 := if u.scheme ≠ "" then u.scheme ++ ":" ++ url1 else url1
  let url3 := if u.query ≠ "" then url2 ++ "?" ++ u.query else url2
  if u.fragment ≠ "" then url3 ++ "#" ++ u.fragment else url3

/-- Python `s.rstrip('/')`. -/
def rstripSlash (s : String) : String :=
  String.mk (s.toList.reverse.dropWhile (fun c => c == '/')).reverse

/-- Source `normalize_url_for_dedupe`: remove fragment, fold the staging
host to canonical (`NORMALIZE_STAGING_URLS` is `True`), strip the
trailing slash from the path. -/
def normalize_url_for_dedupe (url : String) : String :=
  if url = "" then url
  else
    let parsed := pyUrlparse url
    pyUrlunparse { parsed with
      netloc := strReplace parsed.netloc "staging.arrsys.com" "arrsys.com",
      path := rstripSlash parsed.path,
      fragment := "" }

/-- Source `normalize_url`: remove fragment and fold the staging host. -/
def normalize_url (url : String) : String :=
  if url = "" then url
  else
    let parsed := pyUrlparse url
    pyUrlunparse { parsed with
      netloc := strReplace parsed.netloc "staging.arrsys.com" "arrsys.com",
      fragment := "" }

/-- Source `normalize_email`: strip and lowercase; must contain `@` and a
dot in the domain part (`s.split('@')[1]`). -/
def normalize_email (s : String) : Option String :=
  if s = "" then none
  else
    let s := pyLower (pyStrip s)
    if s.toList.contains '@' ∧ (((splitChar '@' s).getD 1 "").toList.contains '.') then
      some s
    else none

/-- Source `normalize_value`: stringify, strip, collapse whitespace. -/
def normalize_value (s : String) : String :=
  joinSpace (pySplitWs (pyStrip s))

/-- Source `submitted_day_ms`: epoch milliseconds to a `YYYY-MM-DD` day in
America/Toronto. The `datetime`/`ZoneInfo` conversion is an external
collaborator, modelled by the parameter `msToDay`; falsy (`None` or `0`)
input gives `"(unknown)"`. -/
def submitted_day_ms (msToDay : Int → String) (ms : Option Int) : String :=
  match ms with
  | none => "(unknown)"
  | some t => if t = 0 then "(unknown)" else msToDay t

/-- Source `extract_phone_digits`. -/
def extract_phone_digits (s : String) : String :=
  if s = "" then ""
  else
    let s := pyStrip s
    let hasPlus := strStarts s "+"
    let digits := String.mk (s.toList.filter Char.isDigit)
    if hasPlus ∧ digits ≠ "" then "+" ++ digits else digits

def alphaRunsGo : List Char → List Char → List String
  | [], cur => if cur.isEmpty then [] else [String.mk cur.reverse]
  | c :: cs, cur =>
      if c.isAlpha then alphaRunsGo cs (c :: cur)
      else if cur.isEmpty then alphaRunsGo cs []
      else String.mk cur.reverse :: alphaRunsGo cs []

/-- Maximal alphabetic runs of a char list (the word extraction inside
`split_country_and_phone`: spaces and other non-letters both break words). -/
def alphaRuns (l : List Char) : List String :=
  alphaRunsGo l []

/-- Source `split_country_and_phone`: split a composite country+phone
string; `(none, none)` when not composite. -/
def split_country_and_phone (s : String) : Option String × Option String :=
  if s = "" then (none, none)
  else
    let s := pyStrip s
    let hasLetters := s.toList.any Char.isAlpha
    let hasDigits := s.toList.any Char.isDigit
    if hasLetters ∧ hasDigits then
      let phone := extract_phone_digits s
      let country0 := String.mk (s.toList.map (fun c =>
        if c.isDigit || c == '+' || c == '-' || c == '(' || c == ')' then ' ' else c))
      let country := pyStrip (joinSpace (alphaRuns country0.toList))
      let phoneDigitsOnly := strReplace phone "+" ""
      if 7 ≤ phoneDigitsOnly.length ∧ 2 ≤ country.length then
        (some country, some phone)
      else (none, none)
    else (none, none)

/-- Title-case one word as inside `normalize_name`. -/
def titleWord (w : String) : String :=
  match w.toList with
  | [] => ""
  | [c] => String.mk [c.toUpper]
  | c :: rest => String.mk (c.toUpper :: rest.map Char.toLower)

/-- Source `normalize_name`: collapse whitespace; title-case when the
letters are all-upper or all-lower (and there are at least two). -/
def normalize_name (s : String) : String :=
  if s = "" then s
  else
    let s := joinSpace (pySplitWs s)
    let letters := s.toList.filter Char.isAlpha
    if 2 ≤ letters.length ∧
        (letters.map Char.toUpper = letters ∨ letters.map Char.toLower = letters) then
      joinSpace ((pySplitWs s).map titleWord)
    else s

/-- Python `str.title()` (for the remaining-field labels): the first letter
of each alphabetic run is uppercased, the rest lowercased. -/
def pyTitleGo : List Char → Bool → List Char
  | [], _ => []
  | c :: cs, prevAlpha =>
      if c.isAlpha then
        (if prevAlpha then c.toLower else c.toUpper) :: pyTitleGo cs true
      else c :: pyTitleGo cs false

/-- Python `str.title()`. -/
def pyTitle (s : String) : String :=
  String.mk (pyTitleGo s.toList false)

/-- Source `html_escape`: `html.escape(str(s), quote=True)`. The sequential
`str.replace` chain is equivalent to this per-character map because `&` is
replaced first. -/
def html_escape (s : String) : String :=
  strJoin (s.toList.map (fun c =>
    if c = '&' then "&amp;"
    else if c = '<' then "&lt;"
    else if c = '>' then "&gt;"
    else if c = '"' then "&quot;"
    else if c = '\'' then "&#x27;"
    else String.mk [c]))

/-- Source `PHONE_FIELD_SYNONYMS`. -/
def PHONE_FIELD_SYNONYMS : List String :=
  ["phone", "mobilephone", "phone_number", "phonenumber", "number", "tel", "telephone"]

/-- Source `COMPANY_FIELD_SYNONYMS`. -/
def COMPANY_FIELD_SYNONYMS : List String :=
  ["company", "company_name"]

def rawFieldsGo : List (String × String) → PyDict → PyDict
  | [], d => d
  | item :: rest, d =>
      if pyLower item.1 = "objecttypeid" then rawFieldsGo rest d
      else if item.1 ≠ "" then
        rawFieldsGo rest
          (let rawName := pyLower item.1
           let rawValue := if item.2 ≠ "" then normalize_value item.2 else ""
           if rawValue ≠ "" ∨ ¬ alContains d rawName then alSet d rawName rawValue
           else d)
      else rawFieldsGo rest d

/-- First pass of `build_canonical_fields`: collect raw fields from the
submission `values` list (a list of `name`/`value` items; non-dict items
are dropped before this model). Internal `objectTypeId` keys are skipped,
names are lowercased, values normalized, and for a repeated field name the
last non-empty value wins. -/
def rawFieldsPass (values : List (String × String)) : PyDict :=
  rawFieldsGo values []

/-- First dict value found under any of the given synonym keys. -/
def firstSynonym (d : PyDict) : List String → Option String
  | [] => none
  | k :: ks => match alGet d k with
      | some v => some v
      | none => firstSynonym d ks

/-- Conditional dict assignment (`d[k] = v` when a value is present). -/
def optSet (d : PyDict) (k : String) : Option String → PyDict
  | some v => alSet d k v
  | none => d

/-- The canonical email of `build_canonical_fields`: the normalized email
when valid, else the raw value lowercased and stripped. -/
def canonEmailOf (raw : PyDict) : Option String :=
  (alGet raw "email").map (fun ev =>
    match normalize_email ev with
    | some en => en
    | none => pyStrip (pyLower ev))

/-- The canonical name of `build_canonical_fields`: firstname/lastname
combined when present, else the `name` field. -/
def canonNameOf (raw : PyDict) : Option String :=
  let nameParts :=
    (match alGet raw "firstname" with | some v => [v] | none => []) ++
    (match alGet raw "lastname" with | some v => [v] | none => [])
  if nameParts ≠ [] then some (normalize_value (joinSpace nameParts))
  else alGet raw "name"

/-- The canonical phone and phone-derived country of
`build_canonical_fields` (the composite split; the country applies only
when no explicit `country` field exists). -/
def canonPhoneCountryOf (raw : PyDict) : Option String × Option String :=
  match firstSynonym raw PHONE_FIELD_SYNONYMS with
  | some pv =>
      if pv ≠ "" then
        match split_country_and_phone pv with
        | (some cv, some pd) =>
            (some pd, if ¬ alContains raw "country" then some cv else none)
        | _ => (some (extract_phone_digits pv), none)
      else (none, none)
  | none => (none, none)

/-- The field names already handled before the remaining-fields pass of
`build_canonical_fields`. -/
def processedKeys : List String :=
  ["email", "firstname", "lastname", "name", "country", "company"] ++
    PHONE_FIELD_SYNONYMS ++ COMPANY_FIELD_SYNONYMS

/-- Source `build_canonical_fields`: canonical field dict from the
submission values list (lowercase names, normalized values, phone/company
synonyms folded, firstname/lastname combined, composite phone split). The
entries are assigned in the source's order: email, name, phone, country
from the phone split, explicit country, company, then the remaining raw
fields with non-empty values in insertion order. -/
def remainingGo : PyDict → PyDict → PyDict
  | [], c => c
  | kv :: rest, c =>
      remainingGo rest
        (if ¬ processedKeys.contains kv.1 ∧ kv.2 ≠ "" then alSet c kv.1 kv.2 else c)

/-- The front entries of `build_canonical_fields` (email, name, phone,
country from the phone split, explicit country, company — in the source's
assignment order). -/
def canonicalFront (raw : PyDict) : PyDict :=
  optSet (optSet (optSet (optSet (optSet (optSet [] "email" (canonEmailOf raw))
    "name" (canonNameOf raw)) "phone" (canonPhoneCountryOf raw).1)
    "country" (canonPhoneCountryOf raw).2)
    "country" (alGet raw "country")) "company" (firstSynonym raw COMPANY_FIELD_SYNONYMS)

def build_canonical_fields (values : List (String × String)) : PyDict :=
  let raw := rawFieldsPass values
  remainingGo raw (canonicalFront raw)

/-- The `strict_payload` JSON of `compute_dedupe_keys` (and the
`fallback_payload` of `run_create_notes`): `json.dumps` with
`sort_keys=True` and separators `(',', ':')`; the four top-level keys are
already in sorted order. -/
def strictJsonPayload (email page : String) (fields : PyDict) (date : String) : String :=
  "\x7b\"email\":" ++ jsonStr email ++ ",\"fields\":" ++ jsonObjSorted fields ++
    ",\"page\":" ++ jsonStr page ++ ",\"submitted_date\":" ++ jsonStr date ++ "\x7d"

/-- Source `compute_dedupe_keys`: `(strict_hash, day_key)`. -/
def compute_dedupe_keys (msToDay : Int → String) (email page_url : String)
    (submitted_at_ms : Option Int) (canonical_fields : PyDict) : String × String :=
  let email_norm := match normalize_email email with
    | some e => e
    | none => pyStrip (pyLower email)
  let page_norm := normalize_url_for_dedupe page_url
  let submitted_date := submitted_day_ms msToDay submitted_at_ms
  let strict_json := strictJsonPayload email_norm page_norm canonical_fields submitted_date
  (sha256hex strict_json, email_norm ++ "|" ++ page_norm ++ "|" ++ submitted_date)

/-- Source `make_submission_key`: `f"{form_guid}:{conversion_id}"`. -/
def make_submission_key (form_guid conversion_id : String) : String :=
  form_guid ++ ":" ++ conversion_id

/-- A form submission as read by the note-creation path: `conversionId`
(empty string when missing, as `submission.get('conversionId', '')`),
`pageUrl`, `submittedAt` (epoch ms) and the `values` list of
name/value items. -/
structure Submission where
  conversionId : String
  pageUrl : String
  submittedAt : Option Int
  values : List (String × String)
deriving Repr, DecidableEq

/-- Source `_extract_canonical_fields_from_submission`: returns
`(canonical, remaining_fields, page_url_normalized, submitted_date_str)`.
Note this first pass differs from `build_canonical_fields`: first
non-empty value wins and values are merely stripped. -/
def extractCanonicalFieldsFromSubmission (msToDay : Int → String) (sub : Submission) :
    PyDict × PyDict × String × String :=
  let page_url_normalized := if sub.pageUrl ≠ "" then normalize_url sub.pageUrl else ""
  let submitted_date_str :=
    match sub.submittedAt with
    | none => "(unknown)"
    | some t => if t = 0 then "(unknown)" else msToDay t
  let raw := sub.values.foldl (fun d item =>
    if item.1 ≠ "" then
      let rawName := pyLower item.1
      let rawValue := if item.2 ≠ "" then pyStrip item.2 else ""
      if ¬ alContains d rawName ∧ rawValue ≠ "" then alSet d rawName rawValue else d
    else d) []
  let canonical : PyDict := []
  let processed : List String := []
  let (canonical, processed) :=
    match alGet raw "email" with
    | some ev => (alSet canonical "email" ev, processed ++ ["email"])
    | none => (canonical, processed)
  let (nameParts, processed) :=
    match alGet raw "firstname", alGet raw "lastname" with
    | some f, some l => ([f, l], processed ++ ["firstname", "lastname"])
    | some f, none => ([f], processed ++ ["firstname"])
    | none, some l => ([l], processed ++ ["lastname"])
    | none, none => ([], processed)
  let (canonical, processed) :=
    if nameParts ≠ [] then
      (alSet canonical "name" (normalize_name (joinSpace nameParts)), processed)
    else match alGet raw "name" with
      | some v => (alSet canonical "name" (normalize_name v), processed ++ ["name"])
      | none => (canonical, processed)
  let phonePick : Option (String × String) :=
    (PHONE_FIELD_SYNONYMS.find? (fun k => alContains raw k)).map
      (fun k => (k, (alGet raw k).getD ""))
  let processed :=
    match phonePick with
    | some (k, _) => processed ++ [k]
    | none => processed
  let phoneState : Option String × Option String :=
    match phonePick with
    | some (_, pv) =>
        if pv ≠ "" then
          match split_country_and_phone pv with
          | (some cv, some pd) => (some pd, some cv)
          | _ => (some (extract_phone_digits pv), none)
        else (some pv, none)
    | none => (none, none)
  let canonical :=
    match phoneState with
    | (some pd, some cv) =>
        if ¬ alContains raw "country" then alSet canonical "country" cv else canonical
    | _ => canonical
  let canonical :=
    match phoneState.1 with
    | some pv => if pv ≠ "" then alSet canonical "phone" pv else canonical
    | none => canonical
  let (canonical, processed) :=
    match alGet raw "country" with
    | some cv => (alSet canonical "country" cv, processed ++ ["country"])
    | none =>
        (match phoneState.2 with
         | some cv =>
             if ¬ alContains canonical "country" then
               (alSet canonical "country" cv, processed)
             else (canonical, processed)
         | none => (canonical, processed))
  let (canonical, processed) :=
    match COMPANY_FIELD_SYNONYMS.find? (fun k => alContains raw k) with
    | some k =>
        let v := (alGet raw k).getD ""
        (if v ≠ "" then alSet canonical "company" v else canonical, processed ++ [k])
    | none => (canonical, processed)
  let remaining := raw.foldl (fun r kv =>
    if ¬ processed.contains kv.1 then
      alSet r (pyTitle (strReplace kv.1 "_" " ")) kv.2
    else r) []
  (canonical, remaining, page_url_normalized, submitted_date_str)

/-- The response `<li>` items of the HTML note body, in priority order. -/
def htmlResponseItems (canonical remaining : PyDict) : List String :=
  let items :=
    (match alGet canonical "email" with
     | some v => ["<li><strong>Email:</strong> " ++ html_escape v ++ "</li>"]
     | none => []) ++
    (match alGet canonical "phone" with
     | some v => ["<li><strong>Phone:</strong> " ++ html_escape v ++ "</li>"]
     | none => []) ++
    (match alGet canonical "name" with
     | some v => ["<li><strong>Name:</strong> " ++ html_escape v ++ "</li>"]
     | none => []) ++
    (match alGet canonical "company" with
     | some v => ["<li><strong>Company:</strong> " ++ html_escape v ++ "</li>"]
     | none => []) ++
    (match alGet canonical "country" with
     | some v => ["<li><strong>Country:</strong> " ++ html_escape v ++ "</li>"]
     | none => []) ++
    ((stableSortBy (fun a b => decide (pyLower a.1 ≤ pyLower b.1)) remaining).map
      (fun kv => "<li><strong>" ++ html_escape kv.1 ++ ":</strong> " ++
        html_escape kv.2 ++ "</li>"))
  if items.length = 1 ∧ alContains canonical "email" then
    items ++ ["<li><strong>(No additional fields captured)</strong></li>"]
  else items

/-- The opening of the hidden marker span in the HTML note body. -/
def markerSpanHead : String :=
  "<br><br><span style=\"font-size:0; color:transparent;\">"

/-- The hidden-span marker appended to the HTML note body. -/
def markerSpan (submission_key : String) : String :=
  markerSpanHead ++ "hs_form_submission_key=" ++ submission_key ++ "</span>"

/-- Source `submission_to_note_html`: the HTML note body together with the
derived dict (here just the canonical fields; the derived dict's other
entries are the returned page/date, which this model exposes through
`extractCanonicalFieldsFromSubmission`). -/
def submission_to_note_html (msToDay : Int → String) (form_name form_guid : String)
    (sub : Submission) (conversion_id : Option String) : String × PyDict :=
  let (canonical, remaining, page_url_normalized, submitted_date_str) :=
    extractCanonicalFieldsFromSubmission msToDay sub
  let html_parts :=
    ["<strong>Website form submission</strong><br><br>"] ++
    [(if page_url_normalized ≠ "" then
        "<strong>Page:</strong> " ++ html_escape page_url_normalized ++ "<br>"
      else "<strong>Page:</strong> (unknown)<br>")] ++
    ["<strong>Form:</strong> " ++ html_escape form_name ++ " (" ++
      html_escape form_guid ++ ")<br>"] ++
    ["<strong>Submitted:</strong> " ++ html_escape submitted_date_str ++ "<br><br>"] ++
    ["<strong>Responses:</strong>", "<ul>"] ++
    htmlResponseItems canonical remaining ++
    ["</ul>"] ++
    (match conversion_id with
     | some cid =>
         if cid ≠ "" then [markerSpan (make_submission_key form_guid cid)] else []
     | none => [])
  (strJoin html_parts, canonical)

/-- The response lines of the plain-text note body, in priority order. -/
def textResponseLines (canonical remaining : PyDict) : List String :=
  let items :=
    (match alGet canonical "email" with
     | some v => [" Email: " ++ v]
     | none => []) ++
    (match alGet canonical "phone" with
     | some v => [" Phone: " ++ v]
     | none => []) ++
    (match alGet canonical "name" with
     | some v => [" Name: " ++ v]
     | none => []) ++
    (match alGet canonical "company" with
     | some v => [" Company: " ++ v]
     | none => []) ++
    (match alGet canonical "country" with
     | some v => [" Country: " ++ v]
     | none => []) ++
    ((stableSortBy (fun a b => decide (pyLower a.1 ≤ pyLower b.1)) remaining).map
      (fun kv => " " ++ kv.1 ++ ": " ++ kv.2))
  if items.length = 1 ∧ alContains canonical "email" then
    items ++ [" (No additional fields captured)"]
  else items

/-- Source `submission_to_note_text`: the plain-text note body. -/
def submission_to_note_text (msToDay : Int → String) (form_name form_guid : String)
    (sub : Submission) (conversion_id : Option String) : String × PyDict :=
  let (canonical, remaining, page_url_normalized, submitted_date_str) :=
    extractCanonicalFieldsFromSubmission msToDay sub
  let lines :=
    ["Website form submission", ""] ++
    [(if page_url_normalized ≠ "" then "Page: " ++ page_url_normalized
      else "Page: (unknown)")] ++
    ["Form: " ++ form_name ++ " (" ++ form_guid ++ ")"] ++
    ["Submitted: " ++ submitted_date_str, "", "Responses:"] ++
    textResponseLines canonical remaining ++
    (match conversion_id with
     | some cid =>
         if cid ≠ "" then
           ["", "hs_form_submission_key=" ++ make_submission_key form_guid cid]
         else []
     | none => [])
  (joinNl lines, canonical)

/-- Match a literal pattern at the head of a char list; on success return
the remainder. -/
def stripLit : List Char → List Char → Option (List Char)
  | [], l => some l
  | _ :: _, [] => none
  | p :: ps, c :: cs => if c = p then stripLit ps cs else none

/-- Search semantics of `re.search` for the patterns used here: try the
literal head at every position left to right, and at each occurrence run
the deterministic tail parser; on parser failure resume the search one
character further on (the patterns' character classes make backtracking
inside a single attempt impossible, so this is exactly the regex
behaviour). -/
def searchLit (lit : List Char) (parse : List Char → Option String) :
    List Char → Option String
  | [] => none
  | c :: cs =>
      match stripLit lit (c :: cs) with
      | some rest =>
          match parse rest with
          | some r => some r
          | none => searchLit lit parse cs
      | none => searchLit lit parse cs

/-- Characters of the marker-key character class `[0-9a-fA-F\-]`. -/
def isMarkerChar (c : Char) : Bool :=
  decide (('0' ≤ c ∧ c ≤ '9') ∨ ('a' ≤ c ∧ c ≤ 'f') ∨ ('A' ≤ c ∧ c ≤ 'F') ∨ c = '-')

/-- The literal head of the durable marker pattern. -/
def markerLit : List Char := "hs_form_submission_key=".toList

/-- Tail parser of the durable marker pattern
`hs_form_submission_key=([0-9a-fA-F\-]+:[0-9a-fA-F\-]+)`: a nonempty
marker-char run, a colon, a nonempty marker-char run (the colon is outside
the class, so greedy matching is deterministic). -/
def parseNewGroup (l : List Char) : Option String :=
  let g := l.takeWhile isMarkerChar
  if g = [] then none
  else
    match l.drop g.length with
    | ':' :: rest =>
        let c := rest.takeWhile isMarkerChar
        if c = [] then none else some (String.mk (g ++ ':' :: c))
    | _ => none

/-- Characters of the class `[^\s>]`. -/
def noSpaceGt (c : Char) : Bool := ¬ (pySpaceChar c || c == '>')

/-- Tail parser of the legacy marker pattern
`hs_form_submission:\s*formGuid=([^\s>]+)\s+conversionId=([^\s>]+)`. -/
def parseOldMarker (l : List Char) : Option String :=
  let l1 := l.dropWhile pySpaceChar
  match stripLit "formGuid=".toList l1 with
  | none => none
  | some l2 =>
      let g := l2.takeWhile noSpaceGt
      if g = [] then none
      else
        let l3 := l2.drop g.length
        let ws := l3.takeWhile pySpaceChar
        if ws = [] then none
        else
          match stripLit "conversionId=".toList (l3.drop ws.length) with
          | none => none
          | some l4 =>
              let c := l4.takeWhile noSpaceGt
              if c = [] then none
              else some (String.mk g ++ ":" ++ String.mk c)

/-- Source `extract_marker_key`: the new durable marker pattern first, then
the legacy pattern. -/
def extract_marker_key (note_body : String) : Option String :=
  if note_body = "" then none
  else
    match searchLit markerLit parseNewGroup note_body.toList with
    | some k => some k
    | none => searchLit "hs_form_submission:".toList parseOldMarker note_body.toList

/-- Tail parser for `\s*([^<]+)` followed by a required literal (used by
the `Page:`/`Email:` extraction patterns). The whitespace and the
captured run together form the maximal run up to the next `<`; the caller
strips it, matching `match.group(1).strip()`. -/
def parseToLt (term : List Char) (l : List Char) : Option String :=
  let run := l.takeWhile (fun c => c ≠ '<')
  if run = [] then none
  else if (l.drop run.length).take term.length = term then some (String.mk run)
  else none

/-- Tail parser for `\s*([0-9]{4}-[0-9]{2}-[0-9]{2})`. -/
def parseDate (l : List Char) : Option String :=
  match l.dropWhile pySpaceChar with
  | a :: b :: c :: d :: '-' :: e :: f :: '-' :: g :: h :: _ =>
      if [a, b, c, d, e, f, g, h].all Char.isDigit then
        some (String.mk [a, b, c, d, '-', e, f, '-', g, h])
      else none
  | _ => none

/-- Plain-text scan of `extract_semantic_key`: each line is stripped, then
the `Page:` / `Submitted:` / `' Email:'` starts are tried (the last can
never fire on a stripped line — kept faithful to the source). -/
def semanticTextScan (lines : List String) :
    Option String × Option String × Option String :=
  lines.foldl (fun st line =>
    let (page, date, email) := st
    let line := pyStrip line
    if strStarts line "Page:" then
      let p := pyStrip (String.mk (line.toList.drop 5))
      (if p = "(unknown)" then none else some p, date, email)
    else if strStarts line "Submitted:" then
      match searchLit "Submitted:".toList parseDate line.toList with
      | some d => (page, some d, email)
      | none => (page, date, email)
    else if strStarts line " Email:" then
      (page, date, some (pyStrip (String.mk (line.toList.drop 8))))
    else (page, date, email)) (none, none, none)

/-- Source `extract_semantic_key`: `"{page}|{date}|{email}"` from a note
body in either known format, `none` when any part is missing. -/
def extract_semantic_key (note_body : String) : Option String :=
  if note_body = "" then none
  else
    let is_html := strContainsSub note_body "<strong>" ||
      strContainsSub note_body "<br>" || strContainsSub note_body "<ul>"
    let parts : Option String × Option String × Option String :=
      if is_html then
        let page :=
          match (searchLit "<strong>Page:</strong>".toList
              (parseToLt "<br>".toList) note_body.toList).map pyStrip with
          | some p => if p = "(unknown)" then none else some p
          | none => none
        let date := searchLit "<strong>Submitted:</strong>".toList parseDate
          note_body.toList
        let email := (searchLit "<li><strong>Email:</strong>".toList
          (parseToLt "</li>".toList) note_body.toList).map pyStrip
        (page, date, email)
      else semanticTextScan (splitChar '\n' note_body)
    let page := match parts.1 with
      | some p => if p ≠ "" then some (normalize_url_for_dedupe p) else some p
      | none => none
    let email := (parts.2.2).map (fun e => pyStrip (pyLower e))
    match page, parts.2.1, email with
    | some p, some d, some e =>
        if p ≠ "" ∧ d ≠ "" ∧ e ≠ "" then some (p ++ "|" ++ d ++ "|" ++ e)
        else none
    | _, _, _ => none

/-- Python truthiness of an optional string (`None` and `''` are falsy). -/
def afterTruthy : Option String → Option String
  | some s => if s ≠ "" then some s else none
  | none => none

/-- One response of the legacy form-submissions listing: `results`, the
optional `paging.next.after` cursor, the legacy `hasMore` flag, and
`offset` (`response.get('offset', 0)`). -/
structure OldSubResponse (α : Type) where
  results : List α
  nextAfter : Option String
  hasMore : Bool
  offset : Int

/-- The request parameters of one page fetch in
`iter_form_submissions_old` (besides the constant `limit`). -/
structure PageReq where
  after : Option String
  offset : Option Int
deriving DecidableEq, Repr

/-- A seen-cursor entry: `('after', a)` or `('offset', o)`. -/
inductive CursorKey where
  | afterK (s : String)
  | offsetK (n : Int)
deriving DecidableEq, Repr

/-- The loop state of `iter_form_submissions_old`. -/
structure OldIterState (α : Type) where
  pages_fetched : Nat
  yielded : List α
  after : Option String
  offset : Option Int
  seen_cursors : List CursorKey
  use_legacy : Option Bool
  done : Bool

/-- Initial state of `iter_form_submissions_old`. -/
def iterInit {α : Type} : OldIterState α :=
  ⟨0, [], none, none, [], none, false⟩

/-- The request built at the top of each `iter_form_submissions_old`
iteration from the committed pagination style. -/
def iterReq {α : Type} (st : OldIterState α) : PageReq :=
  match st.use_legacy with
  | none => ⟨none, none⟩
  | some true => ⟨none, st.offset⟩
  | some false => ⟨st.after, none⟩

/-- One iteration of the `while True` loop of
`iter_form_submissions_old`: fetch, yield, detect the pagination style on
the first page, then advance the committed style with stuck-cursor
detection. `done` marks that the loop has exited. -/
def iterStep {α : Type} (env : PageReq → OldSubResponse α) (st : OldIterState α) :
    OldIterState α :=
  if st.done then st
  else
    let r := env (iterReq st)
    let st := { st with pages_fetched := st.pages_fetched + 1 }
    if r.results.isEmpty then { st with done := true }
    else
      let st := { st with yielded := st.yielded ++ r.results }
      let ul : Option Bool :=
        match st.use_legacy with
        | some b => some b
        | none =>
            match afterTruthy r.nextAfter with
            | some _ => some false
            | none => if r.hasMore then some true else none
      match ul with
      | none => { st with done := true }
      | some false =>
          let st := { st with use_legacy := some false }
          match afterTruthy r.nextAfter with
          | none => { st with done := true }
          | some a =>
              if CursorKey.afterK a ∈ st.seen_cursors then { st with done := true }
              else { st with
                seen_cursors := st.seen_cursors ++ [CursorKey.afterK a],
                after := some a }
      | some true =>
          let st := { st with use_legacy := some true }
          if ¬ r.hasMore then { st with done := true }
          else
            let newOffset := r.offset + r.results.length
            if CursorKey.offsetK newOffset ∈ st.seen_cursors then { st with done := true }
            else { st with
              seen_cursors := st.seen_cursors ++ [CursorKey.offsetK newOffset],
              offset := some newOffset }

/-- Source `iter_form_submissions_old`, driven for at most `fuel`
iterations (the Python loop need not terminate for arbitrary remote
responses; every theorem below names the fuel it needs). -/
def iter_form_submissions_old {α : Type} (env : PageReq → OldSubResponse α) :
    Nat → OldIterState α → OldIterState α
  | 0, st => st
  | fuel + 1, st => iter_form_submissions_old env fuel (iterStep env st)

/-- One transport-level response as seen by the retry loop of
`hubspot_get`/`hubspot_post`. The `retryAfterHint` field models a
`Retry-After` header carried by an error response; the code never reads
it. -/
inductive HttpResp where
  | success
  | httpError (status : Nat) (retryAfterHint : Option Nat)
  | urlError
  | otherError

/-- Outcome of `hubspot_get`/`hubspot_post`: either a returned JSON body
(`ok`) or `sys.exit(2)` for the recorded reason. `attempts` counts
`urlopen` calls, `waits` the backoff sleeps in seconds. -/
inductive GetOutcome where
  | ok (attempts : Nat) (waits : List Nat)
  | exitAuth (attempts : Nat) (waits : List Nat)
  | exitRateLimit (attempts : Nat) (waits : List Nat)
  | exitServer (attempts : Nat) (waits : List Nat)
  | exitHttpOther (attempts : Nat) (waits : List Nat)
  | exitNetwork (attempts : Nat) (waits : List Nat)
  | exitOther (attempts : Nat) (waits : List Nat)
  | exitMaxRetries (attempts : Nat) (waits : List Nat)
deriving DecidableEq, Repr

/-- Is the outcome a `sys.exit(2)` (run abort)? -/
def GetOutcome.isExit : GetOutcome → Bool
  | .ok _ _ => false
  | _ => true

/-- The retry loop of `hubspot_get` (and, identically, `hubspot_post`):
`max_retries = 5`; 401/403 exit immediately; 429 and 5xx sleep
`2.0 ** retry_count` seconds and retry while `retry_count < 4`, then
exit; network (`URLError`) and all other errors exit immediately.
`env k` is the response to the `k`-th `urlopen` call. -/
def hubspotGetLoop (env : Nat → HttpResp) : Nat → Nat → List Nat → GetOutcome
  | 0, rc, waits => .exitMaxRetries rc waits
  | fuel + 1, rc, waits =>
      match env rc with
      | .success => .ok (rc + 1) waits
      | .urlError => .exitNetwork (rc + 1) waits
      | .otherError => .exitOther (rc + 1) waits
      | .httpError s _ =>
          if s = 401 ∨ s = 403 then .exitAuth (rc + 1) waits
          else if s = 429 then
            if rc < 4 then hubspotGetLoop env fuel (rc + 1) (waits ++ [2 ^ rc])
            else .exitRateLimit (rc + 1) waits
          else if 500 ≤ s ∧ s < 600 then
            if rc < 4 then hubspotGetLoop env fuel (rc + 1) (waits ++ [2 ^ rc])
            else .exitServer (rc + 1) waits
          else .exitHttpOther (rc + 1) waits

/-- Source `hubspot_get` (the URL building and JSON decoding do not affect
the retry behaviour and are outside this model). -/
def hubspot_get (env : Nat → HttpResp) : GetOutcome :=
  hubspotGetLoop env 5 0 []

/-- One response as seen by the bespoke retry loop of `create_note`. -/
inductive CreateResp where
  | success (status : Nat) (noteId : Option String)
  | httpError (status : Nat) (retryAfterHint : Option Nat)
  | urlError
  | otherError

/-- Outcome of `create_note`: the function always returns to its caller
(a note id, or `None` on any failure); it has no `sys.exit` path. -/
inductive CreateOutcome where
  | finished (noteId : Option String) (attempts : Nat) (waits : List Nat)
deriving DecidableEq, Repr

/-- The retry loop of `create_note`: 201 returns the created id, any other
success status returns `None`; 429 and 5xx retry with `2.0 ** retry_count`
backoff while `retry_count < 4` and then return `None`; 401/403 and every
other error (including `URLError`, caught by `except Exception`) return
`None` without retry. -/
def createNoteLoop (env : Nat → CreateResp) : Nat → Nat → List Nat → CreateOutcome
  | 0, rc, waits => .finished none rc waits
  | fuel + 1, rc, waits =>
      match env rc with
      | .success s id? =>
          if s = 201 then .finished id? (rc + 1) waits
          else .finished none (rc + 1) waits
      | .urlError => .finished none (rc + 1) waits
      | .otherError => .finished none (rc + 1) waits
      | .httpError s _ =>
          if s = 429 then
            if rc < 4 then createNoteLoop env fuel (rc + 1) (waits ++ [2 ^ rc])
            else .finished none (rc + 1) waits
          else if 500 ≤ s ∧ s < 600 then
            if rc < 4 then createNoteLoop env fuel (rc + 1) (waits ++ [2 ^ rc])
            else .finished none (rc + 1) waits
          else if s = 401 ∨ s = 403 then .finished none (rc + 1) waits
          else .finished none (rc + 1) waits

/-- Source `create_note` retry behaviour. -/
def create_note (env : Nat → CreateResp) : CreateOutcome :=
  createNoteLoop env 5 0 []

/-- Source `MAX_NOTES_TO_CHECK_PER_CONTACT`. -/
def MAX_NOTES_TO_CHECK_PER_CONTACT : Nat := 500

/-- One page of the contact-to-notes association listing: note ids (an
empty string models a record without an `id`, which is skipped) and the
`paging.next.after` cursor. -/
structure NotesPage where
  results : List String
  nextAfter : Option String

/-- Source `list_note_ids_for_contact`: paginated id collection with the
performance cap (checked after advancing the cursor, so one page may
overshoot the cap). `pages` maps the `after` parameter to the response;
`fuel` bounds the iterations of the Python `while True` loop. -/
def list_note_ids_for_contact (pages : Option String → NotesPage) :
    Nat → Option String → List String → List String
  | 0, _, acc => acc
  | fuel + 1, after, acc =>
      let r := pages after
      if r.results = [] then acc
      else
        let acc := acc ++ r.results.filter (fun i => i ≠ "")
        match afterTruthy r.nextAfter with
        | none => acc
        | some a =>
            if MAX_NOTES_TO_CHECK_PER_CONTACT ≤ acc.length then acc
            else list_note_ids_for_contact pages fuel (some a) acc

/-- Source `batch_read_notes`: note id to `hs_note_body` dict (ids or
bodies that are falsy are dropped; the chunking into batches of 100 does
not change the resulting dict). -/
def batch_read_notes (bodyOf : String → Option String) (ids : List String) : PyDict :=
  ids.foldl (fun d i =>
    match bodyOf i with
    | some b => if i ≠ "" ∧ b ≠ "" then alSet d i b else d
    | none => d) []

/-- A per-contact dedup cache entry: known bodies, marker keys and
semantic keys (Python sets, modelled as duplicate-free lists). -/
structure CacheEntry where
  bodies : List String
  marker_keys : List String
  semantic_keys : List String
deriving DecidableEq, Repr

/-- One iteration of the per-note-body classification loop inside
`get_contact_existing_note_bodies`: the body joins `bodies`; its marker
key joins `marker_keys` when extraction succeeds, otherwise — and only
otherwise — its semantic key is tried for `semantic_keys`. -/
def classifyStep (e : CacheEntry) (b : String) : CacheEntry :=
  let e := { e with bodies := setAdd e.bodies b }
  match extract_marker_key b with
  | some k => { e with marker_keys := setAdd e.marker_keys k }
  | none =>
      match extract_semantic_key b with
      | some s => { e with semantic_keys := setAdd e.semantic_keys s }
      | none => e

def classifyGo : List String → CacheEntry → CacheEntry
  | [], e => e
  | b :: bs, e => classifyGo bs (classifyStep e b)

/-- The classification loop of `get_contact_existing_note_bodies` over the
batch-read note bodies. -/
def classifyNoteBodies (bodies : List String) : CacheEntry :=
  classifyGo bodies ⟨[], [], []⟩

/-- Result of `get_contact_existing_note_bodies` together with its
observable effects: the (possibly updated) cache, whether the cap warning
was printed, and which note ids had their bodies batch-read. -/
structure ContactFetchResult where
  entry : CacheEntry
  cache : List (String × CacheEntry)
  warned : Bool
  inspected : List String

/-- Source `get_contact_existing_note_bodies`: return the cached entry
when present; otherwise list the contact's note ids, cap them at
`MAX_NOTES_TO_CHECK_PER_CONTACT` (warning when the cap is reached),
batch-read the bodies, classify them, and cache the result. -/
def get_contact_existing_note_bodies (pages : String → Option String → NotesPage)
    (bodyOf : String → Option String) (listFuel : Nat) (contact_id : String)
    (cache : List (String × CacheEntry)) : ContactFetchResult :=
  match alGet cache contact_id with
  | some e => ⟨e, cache, false, []⟩
  | none =>
      let note_ids := list_note_ids_for_contact (pages contact_id) listFuel none []
      if note_ids = [] then
        ⟨⟨[], [], []⟩, alSet cache contact_id ⟨[], [], []⟩, false, []⟩
      else
        let warned := MAX_NOTES_TO_CHECK_PER_CONTACT ≤ note_ids.length
        let ids := if warned then note_ids.take MAX_NOTES_TO_CHECK_PER_CONTACT
          else note_ids
        let bodiesDict := batch_read_notes bodyOf ids
        let e := classifyNoteBodies (bodiesDict.map Prod.snd)
        ⟨e, alSet cache contact_id e, warned, ids⟩

/-- The environment of one `run_create_notes` run: the external
collaborators (field extraction, the NEW-portal email index built in Step
1, the notes listing/read endpoints, the note create/associate calls, and
the timezone conversion). `createNoteResult k` / `associateResult k` give
the outcome of the `k`-th call. -/
structure DriverEnv where
  extractEmail : Submission → Option String
  newEmailToId : String → Option String
  contactPages : String → Option String → NotesPage
  noteBody : String → Option String
  createNoteResult : Nat → Option String
  associateResult : Nat → Bool
  msToDay : Int → String
  listFuel : Nat

/-- The `run_create_notes` configuration: dry-run flag, `limit` and
`max_scan` (positive means active, as `limit > 0` in the source) and the
optional `--since-date` cutoff in epoch ms. -/
structure RunConfig where
  dryRun : Bool
  limit : Int
  maxScan : Int
  cutoffMs : Option Int

/-- One record appended to `out/created_note_keys.jsonl` by
`append_created_note_key` (the wall-clock `createdAt` field is an external
effect and is not modelled). -/
structure LedgerEntry where
  submission_key : String
  formGuid : String
  conversionId : String
  email : String
  page : String
  submitted_date : String
  contactId : String
  noteId : String
  note_body_hash : String
deriving DecidableEq, Repr

/-- Classification of what one loop iteration of `run_create_notes` did
with a submission. -/
inductive StepResult where
  | notEligible
  | skipLocal
  | skipMarker
  | skipSemantic
  | skipExact
  | previewed
  | wrote
  | failedCreate
  | failedAssociate
deriving DecidableEq, Repr

/-- The mutable state of one `run_create_notes` run: the counters, the
`submission_keys_seen` set, the per-contact cache, the JSONL ledger
(`ledger`), the per-item `errors` count, and instrumentation —
`notesCreated` records every note object brought into existence by a
successful `create_note` call (with its submission key), `remoteLookups`
counts `get_contact_existing_note_bodies` calls, and
`createCalls`/`associateCalls` index into the environment oracles. -/
structure RunState where
  scanned : Nat
  eligible : Nat
  skippedLocal : Nat
  skippedMarker : Nat
  skippedSemantic : Nat
  skippedExact : Nat
  fetchedContactNoteSets : Nat
  createdCount : Nat
  seen : List String
  cache : List (String × CacheEntry)
  ledger : List LedgerEntry
  errors : Nat
  notesCreated : List (String × String)
  remoteLookups : Nat
  createCalls : Nat
  associateCalls : Nat

/-- Initial run state; `seen0` is the key set loaded by
`load_created_note_keys` when `--resume` is given (empty otherwise). -/
def runInit (seen0 : List String) : RunState :=
  ⟨0, 0, 0, 0, 0, 0, 0, 0, seen0, [], [], 0, [], 0, 0, 0⟩

/-- The submission key (and effective conversion id) of lines 5008–5031 of
`run_create_notes`: the native `conversionId` when present, else the
SHA-256 of the canonicalized fallback payload. -/
def submission_key_of (msToDay : Int → String) (form_guid email_norm : String)
    (sub : Submission) : String × String :=
  if sub.conversionId ≠ "" then
    (make_submission_key form_guid sub.conversionId, sub.conversionId)
  else
    let canonical_fields := build_canonical_fields sub.values
    let normalized_page_url := normalize_url_for_dedupe sub.pageUrl
    let submitted_date := submitted_day_ms msToDay sub.submittedAt
    let fallback_hash := sha256hex
      (strictJsonPayload email_norm normalized_page_url canonical_fields submitted_date)
    (make_submission_key form_guid fallback_hash, fallback_hash)

/-- The cache update after a (real or dry-run) note creation: the
contact's entry gains the new body, marker key and semantic key. -/
def cacheAugment (cache : List (String × CacheEntry)) (contact_id body key semantic : String) :
    List (String × CacheEntry) :=
  let entry := (alGet cache contact_id).getD ⟨[], [], []⟩
  alSet cache contact_id
    { bodies := setAdd entry.bodies body,
      marker_keys := setAdd entry.marker_keys key,
      semantic_keys := setAdd entry.semantic_keys semantic }

/-- The `--since-date` gate of the loop (`if not submitted_at_ms or
submitted_at_ms < cutoff_ms: continue`; the cutoff is active only when
truthy). -/
def cutoffCheck (cfg : RunConfig) (sub : Submission) : Bool :=
  match cfg.cutoffMs with
  | none => true
  | some c =>
      if c ≠ 0 then
        match sub.submittedAt with
        | none => false
        | some t => decide (t ≠ 0 ∧ ¬ (t < c))
      else true

/-- The eligibility gates of the loop (lines 4983–5003): a truthy
extracted email that normalizes, the date cutoff, and a truthy contact id
from the NEW-portal index. Returns `(email_norm, contact_id)`. -/
def eligContact (env : DriverEnv) (cfg : RunConfig) (sub : Submission) :
    Option (String × String) :=
  match env.extractEmail sub with
  | none => none
  | some email =>
    if email = "" then none
    else
      match normalize_email email with
      | none => none
      | some email_norm =>
        if cutoffCheck cfg sub = false then none
        else
          match env.newEmailToId email_norm with
          | none => none
          | some contact_id =>
            if contact_id = "" then none else some (email_norm, contact_id)

/-- The remote dedup tiers and the write path (lines 5046–5186), entered
once the local `submission_keys_seen` check has passed. The derived
values (`submission_key`, `conversion_id`, page, date, semantic key) come
in as arguments from the caller. -/
def processAfterLocal (env : DriverEnv) (cfg : RunConfig)
    (form_guid form_name : String) (sub : Submission)
    (email_norm contact_id submission_key conversion_id normalized_page_url
      submitted_date semantic_key : String) (st : RunState) :
    RunState × StepResult :=
  let note_body_html :=
    (submission_to_note_html env.msToDay form_name form_guid sub
      (some conversion_id)).1
  let note_body_text :=
    (submission_to_note_text env.msToDay form_name form_guid sub
      (some conversion_id)).1
  let note_body_hash := sha256hex note_body_html
  let isFirstFetch := ¬ alContains st.cache contact_id
  let fr := get_contact_existing_note_bodies env.contactPages env.noteBody
    env.listFuel contact_id st.cache
  let st := { st with
    cache := fr.cache,
    remoteLookups := st.remoteLookups + 1,
    fetchedContactNoteSets :=
      st.fetchedContactNoteSets + (if isFirstFetch then 1 else 0) }
  if submission_key ∈ fr.entry.marker_keys then
    ({ st with skippedMarker := st.skippedMarker + 1,
               seen := setAdd st.seen submission_key }, .skipMarker)
  else if semantic_key ∈ fr.entry.semantic_keys then
    ({ st with skippedSemantic := st.skippedSemantic + 1,
               seen := setAdd st.seen submission_key }, .skipSemantic)
  else if note_body_html ∈ fr.entry.bodies ∨ note_body_text ∈ fr.entry.bodies then
    ({ st with skippedExact := st.skippedExact + 1,
               seen := setAdd st.seen submission_key }, .skipExact)
  else if cfg.dryRun then
    ({ st with
        seen := setAdd st.seen submission_key,
        cache := cacheAugment st.cache contact_id note_body_html
          submission_key semantic_key,
        createdCount := st.createdCount + 1 }, .previewed)
  else
    match env.createNoteResult st.createCalls with
    | none =>
        ({ st with createCalls := st.createCalls + 1,
                   errors := st.errors + 1 }, .failedCreate)
    | some note_id =>
        if note_id = "" then
          ({ st with createCalls := st.createCalls + 1,
                     errors := st.errors + 1 }, .failedCreate)
        else
          let st := { st with
            createCalls := st.createCalls + 1,
            notesCreated := st.notesCreated ++ [(submission_key, note_body_html)] }
          if env.associateResult st.associateCalls then
            ({ st with
                associateCalls := st.associateCalls + 1,
                ledger := st.ledger ++
                  [⟨submission_key, form_guid, conversion_id, email_norm,
                    normalized_page_url, submitted_date, contact_id,
                    note_id, note_body_hash⟩],
                seen := setAdd st.seen submission_key,
                cache := cacheAugment st.cache contact_id note_body_html
                  submission_key semantic_key,
                createdCount := st.createdCount + 1 }, .wrote)
          else
            ({ st with associateCalls := st.associateCalls + 1,
                       errors := st.errors + 1 }, .failedAssociate)

/-- The body of the submission loop of `run_create_notes` (lines
4983–5186): eligibility gates, submission-key computation, the local
`submission_keys_seen` check, then the remote dedup cascade and the write
path of `processAfterLocal`. -/
def processSubmission (env : DriverEnv) (cfg : RunConfig)
    (form_guid form_name : String) (sub : Submission) (st : RunState) :
    RunState × StepResult :=
  match eligContact env cfg sub with
  | none => (st, .notEligible)
  | some ec =>
      let email_norm := ec.1
      let contact_id := ec.2
      let st := { st with eligible := st.eligible + 1 }
      let kc := submission_key_of env.msToDay form_guid email_norm sub
      let normalized_page_url := normalize_url_for_dedupe sub.pageUrl
      let submitted_date := submitted_day_ms env.msToDay sub.submittedAt
      let semantic_key :=
        normalized_page_url ++ "|" ++ submitted_date ++ "|" ++ email_norm
      if kc.1 ∈ st.seen then
        ({ st with skippedLocal := st.skippedLocal + 1 }, .skipLocal)
      else
        processAfterLocal env cfg form_guid form_name sub email_norm contact_id
          kc.1 kc.2 normalized_page_url submitted_date semantic_key st

/-- The submission loop of `run_create_notes` over the flattened stream of
`(form_guid, form_name, submission)` triples produced by iterating the
sorted forms and their submissions, including the `max_scan` and `limit`
stop conditions (which break out of both loops in the source). -/
def run_create_notes (env : DriverEnv) (cfg : RunConfig) :
    List (String × String × Submission) → RunState → RunState
  | [], st => st
  | (fg, fn, sub) :: rest, st =>
      let st := { st with scanned := st.scanned + 1 }
      if cfg.maxScan > 0 ∧ cfg.maxScan ≤ (st.scanned : Int) then st
      else if cfg.limit > 0 ∧ cfg.limit ≤ (st.createdCount : Int) then st
      else
        let st2 := (processSubmission env cfg fg fn sub st).1
        if cfg.limit > 0 ∧ cfg.limit ≤ (st2.createdCount : Int) then st2
        else run_create_notes env cfg rest st2

/-- Test fixture: a constant cursor-style page that repeats forever. -/
def constCursorEnv : PageReq → OldSubResponse Nat :=
  fun _ => ⟨[7], some "A", false, 0⟩

/-- Test fixture: a first page with an `after` cursor but empty results. -/
def emptyAfterEnv : PageReq → OldSubResponse Nat :=
  fun _ => ⟨[], some "A", true, 0⟩

/-- Test fixture: the identity-irrelevant timezone collaborator. -/
def msZero : Int → String := fun _ => ""

/-- Test fixture: a submission with native conversion id `"bb"` and no
field values. -/
def cexSub : Submission := ⟨"bb", "", none, []⟩

/-- Test fixture: a driver environment in which every submission extracts
the same eligible email, the contact has no existing notes, note creation
always succeeds, and the first association call fails. -/
def cexEnv : DriverEnv :=
  { extractEmail := fun _ => some "e@x.com"
    newEmailToId := fun _ => some "c1"
    contactPages := fun _ _ => ⟨[], none⟩
    noteBody := fun _ => none
    createNoteResult := fun n => some ("n" ++ toString n)
    associateResult := fun n => n ≠ 0
    msToDay := msZero
    listFuel := 5 }

/-- Test fixture: production mode, no limits, no cutoff. -/
def cexCfg : RunConfig := ⟨false, 0, 0, none⟩

/-- Test fixture: like `cexEnv` but every `create_note` call fails. -/
def failEnv : DriverEnv := { cexEnv with createNoteResult := fun _ => none }

/-- Test fixture: like `cexEnv` but every association succeeds. -/
def okEnv : DriverEnv := { cexEnv with associateResult := fun _ => true }

/-- Test fixture: like `cexEnv` but the contact has one existing note
whose body carries the marker key `aa:bb`. -/
def markerEnv : DriverEnv :=
  { cexEnv with
    contactPages := fun _ _ => ⟨["n1"], none⟩,
    noteBody := fun _ => some "x hs_form_submission_key=aa:bb y" }

/-- Test fixture: the final state of a production run over the same
submission twice with the first association failing. -/
def cexFinal : RunState :=
  run_create_notes cexEnv cexCfg [("aa", "F", cexSub), ("aa", "F", cexSub)] (runInit [])

/-- Test fixture: a submission whose field value contains a spoofed
marker string ahead of the real marker. -/
def injSub : Submission :=
  ⟨"cc", "", none, [("message", "hs_form_submission_key=aa:bb")]⟩

/-- Test fixture: duplicate field name, values in one order. -/
def dupVals1 : List (String × String) := [("message", "1"), ("message", "2")]

/-- Test fixture: duplicate field name, values in the other order. -/
def dupVals2 : List (String × String) := [("message", "2"), ("message", "1")]


/-- The name/value normalization the first pass of
`build_canonical_fields` applies to a processed item: lowercased name,
stripped and whitespace-collapsed value (an empty value stays empty). -/
def normPair (item : String × String) : String × String :=
  (pyLower item.1, normalize_value item.2)

/-- The items of a `values` list that `build_canonical_fields` processes:
name non-empty and not `objectTypeId`. -/
def activeItems (values : List (String × String)) : List (String × String) :=
  values.filter (fun item => ¬ (pyLower item.1 = "objecttypeid") ∧ item.1 ≠ "")

/-- The condition under which the remaining-fields pass of
`build_canonical_fields` copies a raw entry into the canonical dict. -/
def remainingPred (kv : String × String) : Bool :=
  decide (¬ processedKeys.contains kv.1 = true ∧ kv.2 ≠ "")

/-- Test fixture: a values list with mixed-case names, extra whitespace and
an `objectTypeId` metadata item. -/
def wvs1 : List (String × String) :=
  [("Msg", "  a   b "), ("Email", "E@x.com"), ("objectTypeId", "0-1")]

/-- Test fixture: the same normalized name/value pairs as `wvs1`, reordered
and with different surrounding whitespace. -/
def wvs2 : List (String × String) :=
  [("email", " E@x.com"), ("mSg", "a b")]

/-- No occurrence of the literal starts at any position of the first list
(occurrences may continue into the tail, which is the rest of the text). -/
def cleanBefore (lit : List Char) : List Char → List Char → Bool
  | [], _ => true
  | c :: cs, tail => (stripLit lit (c :: (cs ++ tail))).isNone && cleanBefore lit cs tail

/-! Theorems. Shared helper lemmas come first; each claim then has exactly
one theorem, with a witness for theorems that carry hypotheses and a
counterexample theorem for corrected claims. -/

theorem mem_setAdd_self (s : List String) (x : String) : x ∈ setAdd s x := by
  unfold setAdd
  split
  · assumption
  · simp

theorem mem_setAdd_of_mem {s : List String} {x : String} (y : String)
    (hx : x ∈ s) : x ∈ setAdd s y := by
  unfold setAdd
  split
  · exact hx
  · exact List.mem_append_left _ hx

theorem mem_setAdd_iff {s : List String} {x y : String} :
    x ∈ setAdd s y ↔ x ∈ s ∨ x = y := by
  unfold setAdd
  split
  · rename_i hy
    constructor
    · exact Or.inl
    · rintro (h | rfl)
      · exact h
      · exact hy
  · simp

theorem processAfterLocal_failed (env : DriverEnv) (cfg : RunConfig)
    (fg fn : String) (sub : Submission) (en cid k cv npu sd sem : String)
    (st : RunState)
    (hres : (processAfterLocal env cfg fg fn sub en cid k cv npu sd sem st).2 =
        .failedCreate ∨
      (processAfterLocal env cfg fg fn sub en cid k cv npu sd sem st).2 =
        .failedAssociate) :
    (processAfterLocal env cfg fg fn sub en cid k cv npu sd sem st).1.errors =
        st.errors + 1 ∧
    (processAfterLocal env cfg fg fn sub en cid k cv npu sd sem st).1.ledger =
        st.ledger ∧
    (processAfterLocal env cfg fg fn sub en cid k cv npu sd sem st).1.seen =
        st.seen := by
  simp only [processAfterLocal] at hres ⊢
  rcases hres with hres | hres <;> (repeat' split at hres) <;> simp_all

theorem processSubmission_failed (env : DriverEnv) (cfg : RunConfig)
    (fg fn : String) (sub : Submission) (st : RunState)
    (hres : (processSubmission env cfg fg fn sub st).2 = .failedCreate ∨
      (processSubmission env cfg fg fn sub st).2 = .failedAssociate) :
    (processSubmission env cfg fg fn sub st).1.errors = st.errors + 1 ∧
    (processSubmission env cfg fg fn sub st).1.ledger = st.ledger ∧
    (processSubmission env cfg fg fn sub st).1.seen = st.seen := by
  unfold processSubmission at hres ⊢
  rcases he : eligContact env cfg sub with _ | ec
  · rw [he] at hres
    simp at hres
  · rw [he] at hres
    dsimp only at hres ⊢
    split at hres
    · simp at hres
    · rename_i hnotseen
      rw [if_neg hnotseen]
      exact processAfterLocal_failed env cfg fg fn sub _ _ _ _ _ _ _ _ hres

/-- C7: the spec claims transport errors (URLError) are retried with
backoff and then surfaced as a per-item `Failed` without aborting the run.
In the code, a `URLError` inside `hubspot_get` aborts the whole run at
once (`sys.exit(2)`), with no retry (empty wait list). -/
theorem c7_counterexample :
    hubspot_get (fun _ => .urlError) = .exitNetwork 1 [] ∧
    (hubspot_get (fun _ => .urlError)).isExit = true ∧
    create_note (fun _ => .urlError) = .finished none 1 [] := by
  refine ⟨?_, ?_, ?_⟩
  · simp [hubspot_get, hubspotGetLoop]
  · simp [hubspot_get, hubspotGetLoop, GetOutcome.isExit]
  · simp [create_note, createNoteLoop]

/-- C7 (amended): a transport-level error (`URLError`) during a page fetch
through `hubspot_get`/`hubspot_post` aborts the entire run immediately
with `sys.exit(2)` and is never retried; during a write, `create_note`
catches it and returns `None` (also without retry), which the driver
records as a per-item failure (`errors` grows, ledger and seen set
untouched) and then continues with the next item. -/
theorem c7_transport_errors (env : Nat → HttpResp) (cenv : Nat → CreateResp)
    (denv : DriverEnv) (cfg : RunConfig) (fg fn : String) (sub : Submission)
    (st : RunState) (item : String × String × Submission)
    (rest : List (String × String × Submission))
    (h : env 0 = .urlError) (hc : cenv 0 = .urlError)
    (hres : (processSubmission denv cfg fg fn sub st).2 = .failedCreate ∨
      (processSubmission denv cfg fg fn sub st).2 = .failedAssociate)
    (hms : ¬ (cfg.maxScan > 0 ∧ cfg.maxScan ≤ ((st.scanned + 1 : Nat) : Int)))
    (hlim : ¬ (cfg.limit > 0)) :
    hubspot_get env = .exitNetwork 1 [] ∧
    (hubspot_get env).isExit = true ∧
    create_note cenv = .finished none 1 [] ∧
    ((processSubmission denv cfg fg fn sub st).1.errors = st.errors + 1 ∧
      (processSubmission denv cfg fg fn sub st).1.ledger = st.ledger ∧
      (processSubmission denv cfg fg fn sub st).1.seen = st.seen) ∧
    run_create_notes denv cfg (item :: rest) st =
      run_create_notes denv cfg rest
        (processSubmission denv cfg item.1 item.2.1 item.2.2
          { st with scanned := st.scanned + 1 }).1 := by
  refine ⟨?_, ?_, ?_, ?_, ?_⟩
  · simp [hubspot_get, hubspotGetLoop, h]
  · simp [hubspot_get, hubspotGetLoop, h, GetOutcome.isExit]
  · simp [create_note, createNoteLoop, hc]
  · exact processSubmission_failed denv cfg fg fn sub st hres
  · obtain ⟨a, b, s⟩ := item
    simp only [run_create_notes]
    rw [if_neg hms, if_neg (fun hcon => hlim hcon.1), if_neg (fun hcon => hlim hcon.1)]

/-- C7 witness: the transport-error behaviour at concrete inputs — a
first-call `URLError` in `hubspot_get` and `create_note`, and a concrete
driver step whose `create_note` fails. -/
theorem c7_witness :
    hubspot_get (fun _ => .urlError) = .exitNetwork 1 [] ∧
    (hubspot_get (fun _ => .urlError)).isExit = true ∧
    create_note (fun _ => .urlError) = .finished none 1 [] ∧
    ((processSubmission failEnv cexCfg "aa" "F" cexSub (runInit [])).1.errors =
        (runInit []).errors + 1 ∧
      (processSubmission failEnv cexCfg "aa" "F" cexSub (runInit [])).1.ledger =
        (runInit []).ledger ∧
      (processSubmission failEnv cexCfg "aa" "F" cexSub (runInit [])).1.seen =
        (runInit []).seen) ∧
    run_create_notes failEnv cexCfg (("aa", "F", cexSub) :: [("aa", "F", cexSub)])
        (runInit []) =
      run_create_notes failEnv cexCfg [("aa", "F", cexSub)]
        (processSubmission failEnv cexCfg "aa" "F" cexSub
          { runInit [] with scanned := (runInit []).scanned + 1 }).1 :=
  c7_transport_errors (fun _ => .urlError) (fun _ => .urlError) failEnv cexCfg
    "aa" "F" cexSub (runInit []) ("aa", "F", cexSub) [("aa", "F", cexSub)]
    rfl rfl (Or.inl (by decide)) (by decide) (by decide)

/-- C8: the spec claims the 429 retry honors a server-provided wait hint
and that 401/403 aborts the whole run for every request through the
request layer. In the code, the waits are `2 ** retry_count` even when a
`Retry-After` hint of 100 seconds is present, and a 401 inside
`create_note` returns `None` to the caller (a per-item failure) instead of
aborting the run. -/
theorem c8_counterexample :
    hubspot_get (fun _ => .httpError 429 (some 100)) = .exitRateLimit 5 [1, 2, 4, 8] ∧
    create_note (fun _ => .httpError 401 none) = .finished none 1 [] := by
  constructor
  · simp [hubspot_get, hubspotGetLoop]
  · simp [create_note, createNoteLoop]

/-- C8 (amended): in `hubspot_get`/`hubspot_post`, a 429 is retried with
waits `2 ** retry_count` (1 s, 2 s, 4 s, 8 s) within a budget of 5
attempts — no server wait hint is consulted — and budget exhaustion aborts
the run, as does a 5xx after the same budget; a 401/403 aborts the run on
the first response with no retry. In `create_note`, a 401/403 returns
`None` immediately (per-item failure, never run-fatal) and a persistent
429 returns `None` after the same 5-attempt budget and backoff. -/
theorem c8_retry_policy :
    (∀ (env : Nat → HttpResp) (h : Nat → Option Nat),
        (∀ k, env k = .httpError 429 (h k)) →
        hubspot_get env = .exitRateLimit 5 [1, 2, 4, 8]) ∧
    (∀ (env : Nat → HttpResp) (s : Nat) (hint : Option Nat),
        env 0 = .httpError s hint → (s = 401 ∨ s = 403) →
        hubspot_get env = .exitAuth 1 []) ∧
    (∀ (env : Nat → HttpResp) (s : Nat → Nat) (h : Nat → Option Nat),
        (∀ k, env k = .httpError (s k) (h k)) → (∀ k, 500 ≤ s k ∧ s k < 600) →
        hubspot_get env = .exitServer 5 [1, 2, 4, 8]) ∧
    (∀ (env : Nat → CreateResp) (s : Nat) (hint : Option Nat),
        env 0 = .httpError s hint → (s = 401 ∨ s = 403) →
        create_note env = .finished none 1 []) ∧
    (∀ (env : Nat → CreateResp) (h : Nat → Option Nat),
        (∀ k, env k = .httpError 429 (h k)) →
        create_note env = .finished none 5 [1, 2, 4, 8]) := by
  refine ⟨?_, ?_, ?_, ?_, ?_⟩
  · intro env h henv
    simp [hubspot_get, hubspotGetLoop, henv 0, henv 1, henv 2, henv 3, henv 4]
  · intro env s hint henv hs
    simp [hubspot_get, hubspotGetLoop, henv, hs]
  · intro env s h henv hs
    have h4 : ∀ k, ¬(s k = 401 ∨ s k = 403) := by
      intro k
      have := hs k
      omega
    have h29 : ∀ k, ¬(s k = 429) := by
      intro k
      have := hs k
      omega
    simp [hubspot_get, hubspotGetLoop, henv 0, henv 1, henv 2, henv 3, henv 4,
      h4 0, h4 1, h4 2, h4 3, h4 4, h29 0, h29 1, h29 2, h29 3, h29 4,
      hs 0, hs 1, hs 2, hs 3, hs 4]
  · intro env s hint henv hs
    rcases hs with rfl | rfl <;> simp [create_note, createNoteLoop, henv]
  · intro env h henv
    simp [create_note, createNoteLoop, henv 0, henv 1, henv 2, henv 3, henv 4]

/-- C8 witness: the retry policy at concrete response sequences. -/
theorem c8_witness :
    hubspot_get (fun _ => .httpError 429 (some 7)) = .exitRateLimit 5 [1, 2, 4, 8] ∧
    hubspot_get (fun _ => .httpError 401 none) = .exitAuth 1 [] ∧
    hubspot_get (fun _ => .httpError 503 none) = .exitServer 5 [1, 2, 4, 8] ∧
    create_note (fun _ => .httpError 403 none) = .finished none 1 [] ∧
    create_note (fun _ => .httpError 429 none) = .finished none 5 [1, 2, 4, 8] :=
  ⟨c8_retry_policy.1 _ (fun _ => some 7) (fun _ => rfl),
   c8_retry_policy.2.1 _ 401 none rfl (Or.inl rfl),
   c8_retry_policy.2.2.1 _ (fun _ => 503) (fun _ => none) (fun _ => rfl)
     (fun _ => by norm_num),
   c8_retry_policy.2.2.2.1 _ 403 none rfl (Or.inr rfl),
   c8_retry_policy.2.2.2.2 _ (fun _ => none) (fun _ => rfl)⟩

/-- C5: the spec claims a forever-repeating page is escaped with no
duplicate items. On a constant cursor page the code does stop after one
extra fetch, but it re-yields the stuck page's items: item `7` is yielded
twice. -/
theorem c5_counterexample :
    (iter_form_submissions_old constCursorEnv 3 iterInit).done = true ∧
    (iter_form_submissions_old constCursorEnv 3 iterInit).pages_fetched = 2 ∧
    (iter_form_submissions_old constCursorEnv 3 iterInit).yielded = [7, 7] ∧
    ¬ (iter_form_submissions_old constCursorEnv 3 iterInit).yielded.Nodup := by
  refine ⟨by decide, by decide, by decide, by decide⟩

/-- C5 (amended): for every `fetchPage` that repeats the same page forever
(same results, cursor, `hasMore` and offset), the traversal terminates
within one extra page fetch after the first repeated cursor (at most two
pages in total), but the repeated page's items are yielded a second time:
the yielded sequence is the page's results once or twice, so every item is
yielded at most twice per occurrence in the page — not at most once. -/
theorem c5_stuck_page {α : Type} [DecidableEq α]
    (env : PageReq → OldSubResponse α) (r : OldSubResponse α)
    (henv : ∀ q, env q = r) :
    ((iter_form_submissions_old env 3 iterInit).done = true) ∧
    ((iter_form_submissions_old env 3 iterInit).pages_fetched ≤ 2) ∧
    ((iter_form_submissions_old env 3 iterInit).yielded = r.results ∨
      (iter_form_submissions_old env 3 iterInit).yielded = r.results ++ r.results) ∧
    (∀ x : α, (iter_form_submissions_old env 3 iterInit).yielded.count x ≤
      2 * r.results.count x) := by
  have h3 : iter_form_submissions_old env 3 (iterInit (α := α)) =
      iterStep env (iterStep env (iterStep env iterInit)) := rfl
  have hdone : ∀ st : OldIterState α, st.done = true → iterStep env st = st := by
    intro st hd
    simp [iterStep, hd]
  have key : ((iter_form_submissions_old env 3 iterInit).done = true) ∧
      ((iter_form_submissions_old env 3 iterInit).pages_fetched ≤ 2) ∧
      ((iter_form_submissions_old env 3 iterInit).yielded = r.results ∨
        (iter_form_submissions_old env 3 iterInit).yielded =
          r.results ++ r.results) := by
    rw [h3]
    by_cases hemp : r.results.isEmpty
    · have s1 : iterStep env (iterInit (α := α)) =
          { iterInit with pages_fetched := 1, done := true } := by
        simp [iterStep, iterInit, iterReq, henv, hemp]
      rw [s1, hdone _ rfl, hdone _ rfl]
      exact ⟨rfl, by norm_num, Or.inl (by simp [iterInit, List.isEmpty_iff.mp hemp])⟩
    · rcases hafter : afterTruthy r.nextAfter with _ | a
      · by_cases hmore : r.hasMore
        · have s1 : iterStep env (iterInit (α := α)) =
              { pages_fetched := 1, yielded := r.results, after := none,
                offset := some (r.offset + r.results.length),
                seen_cursors := [CursorKey.offsetK (r.offset + r.results.length)],
                use_legacy := some true, done := false } := by
            simp [iterStep, iterInit, iterReq, henv, hemp, hafter, hmore]
          rw [s1]
          have s2 : iterStep env
              ({ pages_fetched := 1, yielded := r.results, after := none,
                 offset := some (r.offset + r.results.length),
                 seen_cursors := [CursorKey.offsetK (r.offset + r.results.length)],
                 use_legacy := some true, done := false } : OldIterState α) =
              { pages_fetched := 2, yielded := r.results ++ r.results, after := none,
                offset := some (r.offset + r.results.length),
                seen_cursors := [CursorKey.offsetK (r.offset + r.results.length)],
                use_legacy := some true, done := true } := by
            simp [iterStep, iterReq, henv, hemp, hafter, hmore]
          rw [s2, hdone _ rfl]
          exact ⟨rfl, by norm_num, Or.inr rfl⟩
        · have s1 : iterStep env (iterInit (α := α)) =
              { pages_fetched := 1, yielded := r.results, after := none,
                offset := none, seen_cursors := [], use_legacy := none,
                done := true } := by
            simp [iterStep, iterInit, iterReq, henv, hemp, hafter, hmore]
          rw [s1, hdone _ rfl, hdone _ rfl]
          exact ⟨rfl, by norm_num, Or.inl rfl⟩
      · have s1 : iterStep env (iterInit (α := α)) =
            { pages_fetched := 1, yielded := r.results, after := some a,
              offset := none, seen_cursors := [CursorKey.afterK a],
              use_legacy := some false, done := false } := by
          simp [iterStep, iterInit, iterReq, henv, hemp, hafter]
        rw [s1]
        have s2 : iterStep env
            ({ pages_fetched := 1, yielded := r.results, after := some a,
               offset := none, seen_cursors := [CursorKey.afterK a],
               use_legacy := some false, done := false } : OldIterState α) =
            { pages_fetched := 2, yielded := r.results ++ r.results,
              after := some a, offset := none,
              seen_cursors := [CursorKey.afterK a], use_legacy := some false,
              done := true } := by
          simp [iterStep, iterReq, henv, hemp, hafter]
        rw [s2, hdone _ rfl]
        exact ⟨rfl, by norm_num, Or.inr rfl⟩
  refine ⟨key.1, key.2.1, key.2.2, ?_⟩
  intro x
  rcases key.2.2 with h | h <;> rw [h]
  · omega
  · rw [List.count_append]
    omega

/-- C5 witness: the stuck-page bound at the concrete constant page. -/
theorem c5_witness :
    ((iter_form_submissions_old constCursorEnv 3 iterInit).done = true) ∧
    ((iter_form_submissions_old constCursorEnv 3 iterInit).pages_fetched ≤ 2) ∧
    ((iter_form_submissions_old constCursorEnv 3 iterInit).yielded = [7] ∨
      (iter_form_submissions_old constCursorEnv 3 iterInit).yielded = [7] ++ [7]) ∧
    (∀ x : Nat, (iter_form_submissions_old constCursorEnv 3 iterInit).yielded.count x ≤
      2 * List.count x [7]) :=
  c5_stuck_page constCursorEnv ⟨[7], some "A", false, 0⟩ (fun _ => rfl)

/-- C6: the spec claims a first response carrying `paging.next.after`
commits the traversal to cursor-style. A first response with an `after`
cursor but an empty `results` list ends the traversal immediately instead,
with the style never detected (`use_legacy` still `None`). -/
theorem c6_counterexample :
    afterTruthy (emptyAfterEnv ⟨none, none⟩).nextAfter = some "A" ∧
    (iter_form_submissions_old emptyAfterEnv 1 iterInit).done = true ∧
    (iter_form_submissions_old emptyAfterEnv 1 iterInit).use_legacy = none ∧
    ¬ ((iter_form_submissions_old emptyAfterEnv 1 iterInit).use_legacy =
      some false) := by
  refine ⟨by decide, by decide, by decide, by decide⟩

/-- C6 (amended): pagination style is detected at most once, on the first
page with a non-empty `results` list: such a page with a truthy
`paging.next.after` commits to cursor-style, else `hasMore=true` commits
to offset-style, else the traversal ends immediately; a first page with
empty `results` ends the traversal with no style ever detected; and once
`use_legacy` is set it is never changed for the remainder of the
traversal. -/
theorem c6_style_commitment :
    (∀ (α : Type) (env : PageReq → OldSubResponse α) (st : OldIterState α) (b : Bool),
        st.use_legacy = some b → (iterStep env st).use_legacy = some b) ∧
    (∀ (α : Type) (env : PageReq → OldSubResponse α) (fuel : Nat)
        (st : OldIterState α) (b : Bool), st.use_legacy = some b →
        (iter_form_submissions_old env fuel st).use_legacy = some b) ∧
    (∀ (α : Type) (env : PageReq → OldSubResponse α),
        (iterStep env (iterInit (α := α))).use_legacy =
          (if (env ⟨none, none⟩).results.isEmpty then none
           else match afterTruthy (env ⟨none, none⟩).nextAfter with
             | some _ => some false
             | none => if (env ⟨none, none⟩).hasMore then some true else none)) ∧
    (∀ (α : Type) (env : PageReq → OldSubResponse α),
        (env ⟨none, none⟩).results.isEmpty = true →
        (iterStep env (iterInit (α := α))).done = true) ∧
    (∀ (α : Type) (env : PageReq → OldSubResponse α),
        (env ⟨none, none⟩).results.isEmpty = false →
        afterTruthy (env ⟨none, none⟩).nextAfter = none →
        (env ⟨none, none⟩).hasMore = false →
        (iterStep env (iterInit (α := α))).done = true) := by
  have perm : ∀ (α : Type) (env : PageReq → OldSubResponse α)
      (st : OldIterState α) (b : Bool),
      st.use_legacy = some b → (iterStep env st).use_legacy = some b := by
    intro α env st b h
    unfold iterStep
    dsimp only
    split
    · simpa using h
    · split
      · simpa using h
      · rw [h]
        cases b <;> dsimp only <;> (repeat' split) <;> simp_all
  refine ⟨perm, ?_, ?_, ?_, ?_⟩
  · intro α env fuel st b h
    induction fuel generalizing st with
    | zero => exact h
    | succ n ih => exact ih _ (perm α env st b h)
  · intro α env
    unfold iterStep iterInit iterReq
    dsimp only
    repeat' split
    all_goals simp_all
  · intro α env h1
    unfold iterStep iterInit iterReq
    dsimp only
    repeat' split
    all_goals simp_all
  · intro α env h1 h2 h3
    unfold iterStep iterInit iterReq
    dsimp only
    repeat' split
    all_goals simp_all

/-- C6 witness: commitment permanence and first-page detection at concrete
inputs — a committed legacy state stays legacy, and the constant cursor
page detects cursor-style. -/
theorem c6_witness :
    (iterStep constCursorEnv
      (⟨1, [7], none, some 1, [], some true, false⟩ : OldIterState Nat)).use_legacy =
        some true ∧
    (iter_form_submissions_old constCursorEnv 4
      (⟨1, [7], none, some 1, [], some true, false⟩ : OldIterState Nat)).use_legacy =
        some true ∧
    (iterStep constCursorEnv (iterInit (α := Nat))).use_legacy =
      (if (constCursorEnv ⟨none, none⟩).results.isEmpty then none
       else match afterTruthy (constCursorEnv ⟨none, none⟩).nextAfter with
         | some _ => some false
         | none => if (constCursorEnv ⟨none, none⟩).hasMore then some true
            else none) ∧
    (iterStep emptyAfterEnv (iterInit (α := Nat))).done = true :=
  ⟨c6_style_commitment.1 Nat constCursorEnv _ true rfl,
   c6_style_commitment.2.1 Nat constCursorEnv 4 _ true rfl,
   c6_style_commitment.2.2.1 Nat constCursorEnv,
   c6_style_commitment.2.2.2.1 Nat emptyAfterEnv (by decide)⟩

theorem processAfterLocal_core (env : DriverEnv) (cfg : RunConfig)
    (fg fn : String) (sub : Submission) (en cid k cv npu sd sem : String)
    (st : RunState) :
    (∀ x ∈ st.seen,
      x ∈ (processAfterLocal env cfg fg fn sub en cid k cv npu sd sem st).1.seen) ∧
    ((processAfterLocal env cfg fg fn sub en cid k cv npu sd sem st).1.ledger =
        st.ledger ∨
      ∃ e, (processAfterLocal env cfg fg fn sub en cid k cv npu sd sem st).1.ledger =
          st.ledger ++ [e] ∧ e.submission_key = k ∧
          k ∈ (processAfterLocal env cfg fg fn sub en cid k cv npu sd sem st).1.seen) ∧
    ((processAfterLocal env cfg fg fn sub en cid k cv npu sd sem st).2 = .wrote →
      ∃ e, (processAfterLocal env cfg fg fn sub en cid k cv npu sd sem st).1.ledger =
          st.ledger ++ [e] ∧ e.submission_key = k ∧
          k ∈ (processAfterLocal env cfg fg fn sub en cid k cv npu sd sem st).1.seen) := by
  simp only [processAfterLocal]
  repeat' split
  all_goals refine ⟨fun x hx => ?_, ?_, ?_⟩
  all_goals
    try first
    | exact mem_setAdd_of_mem _ hx
    | exact hx
    | simp
    | (refine Or.inr ⟨_, rfl, rfl, mem_setAdd_self _ _⟩)
    | (intro hw; refine ⟨_, rfl, rfl, mem_setAdd_self _ _⟩)
    | (intro hw; simp at hw)
  all_goals exact mem_setAdd_self _ _

theorem processSubmission_core (env : DriverEnv) (cfg : RunConfig)
    (fg fn : String) (sub : Submission) (st : RunState) :
    (∀ x ∈ st.seen, x ∈ (processSubmission env cfg fg fn sub st).1.seen) ∧
    ((processSubmission env cfg fg fn sub st).1.ledger = st.ledger ∨
      ∃ e, (processSubmission env cfg fg fn sub st).1.ledger = st.ledger ++ [e] ∧
        e.submission_key ∉ st.seen ∧
        e.submission_key ∈ (processSubmission env cfg fg fn sub st).1.seen) ∧
    ((processSubmission env cfg fg fn sub st).2 = .wrote →
      ∃ e, (processSubmission env cfg fg fn sub st).1.ledger = st.ledger ++ [e] ∧
        e.submission_key ∉ st.seen ∧
        e.submission_key ∈ (processSubmission env cfg fg fn sub st).1.seen) := by
  unfold processSubmission
  rcases he : eligContact env cfg sub with _ | ec
  · exact ⟨fun x hx => hx, Or.inl rfl, by intro hw; simp at hw⟩
  · dsimp only
    split
    · exact ⟨fun x hx => hx, Or.inl rfl, by intro hw; simp at hw⟩
    · rename_i hnot
      have core := processAfterLocal_core env cfg fg fn sub ec.1 ec.2
        (submission_key_of env.msToDay fg ec.1 sub).1
        (submission_key_of env.msToDay fg ec.1 sub).2
        (normalize_url_for_dedupe sub.pageUrl)
        (submitted_day_ms env.msToDay sub.submittedAt)
        (normalize_url_for_dedupe sub.pageUrl ++ "|" ++
          submitted_day_ms env.msToDay sub.submittedAt ++ "|" ++ ec.1)
        { st with eligible := st.eligible + 1 }
      refine ⟨core.1, ?_, ?_⟩
      · rcases core.2.1 with h | ⟨e, he1, he2, he3⟩
        · exact Or.inl h
        · exact Or.inr ⟨e, he1, by rw [he2]; exact hnot, by rw [he2]; exact he3⟩
      · intro hw
        obtain ⟨e, he1, he2, he3⟩ := core.2.2 hw
        exact ⟨e, he1, by rw [he2]; exact hnot, by rw [he2]; exact he3⟩

theorem run_create_notes_ledger_inv (env : DriverEnv) (cfg : RunConfig)
    (items : List (String × String × Submission)) :
    ∀ st : RunState,
      (∀ e ∈ st.ledger, e.submission_key ∈ st.seen) →
      (∀ k : String,
        st.ledger.countP (fun e => e.submission_key == k) ≤ 1) →
      (∀ e ∈ (run_create_notes env cfg items st).ledger,
        e.submission_key ∈ (run_create_notes env cfg items st).seen) ∧
      (∀ k : String,
        (run_create_notes env cfg items st).ledger.countP
          (fun e => e.submission_key == k) ≤ 1) := by
  induction items with
  | nil => exact fun st h1 h2 => ⟨h1, h2⟩
  | cons item rest ih =>
      intro st h1 h2
      obtain ⟨fg, fn, sub⟩ := item
      simp only [run_create_notes]
      split
      · exact ⟨h1, h2⟩
      · split
        · exact ⟨h1, h2⟩
        · have core := processSubmission_core env cfg fg fn sub
            { st with scanned := st.scanned + 1 }
          set st2 := (processSubmission env cfg fg fn sub
            { st with scanned := st.scanned + 1 }).1 with hst2
          have h1' : ∀ e ∈ st2.ledger, e.submission_key ∈ st2.seen := by
            rcases core.2.1 with hl | ⟨e0, he1, he2, he3⟩
            · intro e hmem
              rw [hl] at hmem
              exact core.1 _ (h1 e hmem)
            · intro e hmem
              rw [he1] at hmem
              rcases List.mem_append.mp hmem with hm | hm
              · exact core.1 _ (h1 e hm)
              · rw [List.mem_singleton.mp hm]
                exact he3
          have h2' : ∀ k : String,
              st2.ledger.countP (fun e => e.submission_key == k) ≤ 1 := by
            rcases core.2.1 with hl | ⟨e0, he1, he2, he3⟩
            · intro k
              rw [hl]
              exact h2 k
            · intro k
              rw [he1, List.countP_append]
              by_cases hk : e0.submission_key = k
              · have hzero : st.ledger.countP (fun e => e.submission_key == k) = 0 := by
                  rw [List.countP_eq_zero]
                  intro e hmem hbeq
                  have : e.submission_key = k := by simpa using hbeq
                  exact he2 (hk ▸ this ▸ h1 e hmem)
                simp [hzero, List.countP_cons, hk]
              · have : (List.countP (fun e => e.submission_key == k) [e0]) = 0 := by
                  simp [List.countP_cons, hk]
                rw [this]
                simpa using h2 k
          split
          · exact ⟨h1', h2'⟩
          · exact ih st2 h1' h2'

/-- C1: the spec claims at most one note carrying a key's marker is ever
created per run. In a run where the same submission occurs twice and the
first note's association to the contact fails, the first note is created
but never recorded, so a second note with the same embedded marker key is
created; the ledger nevertheless receives only one record. -/
theorem c1_counterexample :
    (cexFinal.notesCreated.map Prod.fst) = ["aa:bb", "aa:bb"] ∧
    (∀ p ∈ cexFinal.notesCreated, extract_marker_key p.2 = some "aa:bb") ∧
    cexFinal.ledger.length = 1 ∧
    cexFinal.errors = 1 := by
  refine ⟨by decide, by decide, by decide, by decide⟩

/-- C1 (amended): per run, at most one ledger record with a given
submission key is appended to `out/created_note_keys.jsonl`, and at most
one *recorded* note (one whose creation and association both succeeded)
is created for that key; a note is written only when the key is absent
from `submission_keys_seen`, and after every fully successful write the
key is appended to the ledger and added to `submission_keys_seen` before
the next item. A note whose association fails is neither recorded nor
marked seen, so its key can produce a second marker-carrying note later
in the same run. -/
theorem c1_ledger_at_most_once :
    (∀ (env : DriverEnv) (cfg : RunConfig)
        (items : List (String × String × Submission)) (seen0 : List String)
        (k : String),
        (run_create_notes env cfg items (runInit seen0)).ledger.countP
          (fun e => e.submission_key == k) ≤ 1) ∧
    (∀ (env : DriverEnv) (cfg : RunConfig) (fg fn : String) (sub : Submission)
        (st : RunState),
        (processSubmission env cfg fg fn sub st).2 = .wrote →
        ∃ e, (processSubmission env cfg fg fn sub st).1.ledger = st.ledger ++ [e] ∧
          e.submission_key ∉ st.seen ∧
          e.submission_key ∈ (processSubmission env cfg fg fn sub st).1.seen) := by
  constructor
  · intro env cfg items seen0 k
    exact (run_create_notes_ledger_inv env cfg items (runInit seen0)
      (by intro e hmem; simp [runInit] at hmem)
      (by intro k0; simp [runInit])).2 k
  · intro env cfg fg fn sub st hw
    exact (processSubmission_core env cfg fg fn sub st).2.2 hw

/-- C1 witness: the per-key ledger bound on the concrete double run, and a
concrete successful write that appends its previously-unseen key. -/
theorem c1_witness :
    (run_create_notes cexEnv cexCfg [("aa", "F", cexSub), ("aa", "F", cexSub)]
        (runInit [])).ledger.countP (fun e => e.submission_key == "aa:bb") ≤ 1 ∧
    ((processSubmission okEnv cexCfg "aa" "F" cexSub (runInit [])).2 = .wrote ∧
      ∃ e, (processSubmission okEnv cexCfg "aa" "F" cexSub (runInit [])).1.ledger =
          (runInit []).ledger ++ [e] ∧
        e.submission_key ∉ (runInit []).seen ∧
        e.submission_key ∈
          (processSubmission okEnv cexCfg "aa" "F" cexSub (runInit [])).1.seen) :=
  ⟨c1_ledger_at_most_once.1 cexEnv cexCfg [("aa", "F", cexSub), ("aa", "F", cexSub)]
      [] "aa:bb",
   by decide,
   c1_ledger_at_most_once.2 okEnv cexCfg "aa" "F" cexSub (runInit []) (by decide)⟩

theorem eligContact_some (env : DriverEnv) (cfg : RunConfig) (sub : Submission)
    (e en cid : String)
    (h1 : env.extractEmail sub = some e) (h2 : e ≠ "")
    (h3 : normalize_email e = some en) (h4 : cutoffCheck cfg sub = true)
    (h5 : env.newEmailToId en = some cid) (h6 : cid ≠ "") :
    eligContact env cfg sub = some (en, cid) := by
  simp [eligContact, h1, h2, h3, h4, h5, h6]

theorem processSubmission_local_skip (env : DriverEnv) (cfg : RunConfig)
    (fg fn : String) (sub : Submission) (e en cid : String) (st : RunState)
    (h1 : env.extractEmail sub = some e) (h2 : e ≠ "")
    (h3 : normalize_email e = some en) (h4 : cutoffCheck cfg sub = true)
    (h5 : env.newEmailToId en = some cid) (h6 : cid ≠ "")
    (hin : (submission_key_of env.msToDay fg en sub).1 ∈ st.seen) :
    (processSubmission env cfg fg fn sub st).2 = .skipLocal ∧
    (processSubmission env cfg fg fn sub st).1.cache = st.cache ∧
    (processSubmission env cfg fg fn sub st).1.remoteLookups = st.remoteLookups ∧
    (processSubmission env cfg fg fn sub st).1.seen = st.seen := by
  have helig := eligContact_some env cfg sub e en cid h1 h2 h3 h4 h5 h6
  simp only [processSubmission, helig]
  try dsimp only
  rw [if_pos hin]
  exact ⟨rfl, rfl, rfl, rfl⟩

theorem processAfterLocal_adds_seen (env : DriverEnv) (cfg : RunConfig)
    (fg fn : String) (sub : Submission) (en cid k cv npu sd sem : String)
    (st : RunState)
    (hres : (processAfterLocal env cfg fg fn sub en cid k cv npu sd sem st).2 =
        .skipMarker ∨
      (processAfterLocal env cfg fg fn sub en cid k cv npu sd sem st).2 =
        .skipSemantic ∨
      (processAfterLocal env cfg fg fn sub en cid k cv npu sd sem st).2 =
        .skipExact) :
    k ∈ (processAfterLocal env cfg fg fn sub en cid k cv npu sd sem st).1.seen := by
  simp only [processAfterLocal] at hres ⊢
  rcases hres with hres | hres | hres <;>
    (repeat' split at hres) <;>
    first
    | exact mem_setAdd_self _ _
    | simp_all [mem_setAdd_self]

theorem processSubmission_remote_adds_seen (env : DriverEnv) (cfg : RunConfig)
    (fg fn : String) (sub : Submission) (e en cid : String) (st : RunState)
    (h1 : env.extractEmail sub = some e) (h2 : e ≠ "")
    (h3 : normalize_email e = some en) (h4 : cutoffCheck cfg sub = true)
    (h5 : env.newEmailToId en = some cid) (h6 : cid ≠ "")
    (hres : (processSubmission env cfg fg fn sub st).2 = .skipMarker ∨
      (processSubmission env cfg fg fn sub st).2 = .skipSemantic ∨
      (processSubmission env cfg fg fn sub st).2 = .skipExact) :
    (submission_key_of env.msToDay fg en sub).1 ∈
      (processSubmission env cfg fg fn sub st).1.seen := by
  have helig := eligContact_some env cfg sub e en cid h1 h2 h3 h4 h5 h6
  by_cases hin : (submission_key_of env.msToDay fg en sub).1 ∈ st.seen
  · have := (processSubmission_local_skip env cfg fg fn sub e en cid st
      h1 h2 h3 h4 h5 h6 hin).1
    rcases hres with hres | hres | hres <;> rw [this] at hres <;> simp at hres
  · simp only [processSubmission, helig] at hres ⊢
    rw [if_neg hin] at hres ⊢
    exact processAfterLocal_adds_seen env cfg fg fn sub _ _ _ _ _ _ _ _ hres

/-- C2: the dedup cascade is checked in the order local seen-set, existing
marker keys, existing semantic keys, exact body; a hit at any remote tier
skips and also adds the submission key to the local set, so a second
eligible occurrence of the same key in the same run is skipped at the
local tier with no further remote lookup (the lookup counter and cache are
untouched). -/
theorem c2_dedup_cascade (env : DriverEnv) (cfg : RunConfig)
    (fg fn : String) (sub : Submission) (e en cid : String) (st : RunState)
    (h1 : env.extractEmail sub = some e) (h2 : e ≠ "")
    (h3 : normalize_email e = some en) (h4 : cutoffCheck cfg sub = true)
    (h5 : env.newEmailToId en = some cid) (h6 : cid ≠ "") :
    ((submission_key_of env.msToDay fg en sub).1 ∈ st.seen →
      (processSubmission env cfg fg fn sub st).2 = .skipLocal ∧
      (processSubmission env cfg fg fn sub st).1.cache = st.cache ∧
      (processSubmission env cfg fg fn sub st).1.remoteLookups = st.remoteLookups ∧
      (processSubmission env cfg fg fn sub st).1.seen = st.seen) ∧
    ((submission_key_of env.msToDay fg en sub).1 ∉ st.seen →
      (submission_key_of env.msToDay fg en sub).1 ∈
        (get_contact_existing_note_bodies env.contactPages env.noteBody env.listFuel
          cid st.cache).entry.marker_keys →
      (processSubmission env cfg fg fn sub st).2 = .skipMarker ∧
      (submission_key_of env.msToDay fg en sub).1 ∈
        (processSubmission env cfg fg fn sub st).1.seen) ∧
    ((submission_key_of env.msToDay fg en sub).1 ∉ st.seen →
      (submission_key_of env.msToDay fg en sub).1 ∉
        (get_contact_existing_note_bodies env.contactPages env.noteBody env.listFuel
          cid st.cache).entry.marker_keys →
      (normalize_url_for_dedupe sub.pageUrl ++ "|" ++
        submitted_day_ms env.msToDay sub.submittedAt ++ "|" ++ en) ∈
        (get_contact_existing_note_bodies env.contactPages env.noteBody env.listFuel
          cid st.cache).entry.semantic_keys →
      (processSubmission env cfg fg fn sub st).2 = .skipSemantic ∧
      (submission_key_of env.msToDay fg en sub).1 ∈
        (processSubmission env cfg fg fn sub st).1.seen) ∧
    ((submission_key_of env.msToDay fg en sub).1 ∉ st.seen →
      (submission_key_of env.msToDay fg en sub).1 ∉
        (get_contact_existing_note_bodies env.contactPages env.noteBody env.listFuel
          cid st.cache).entry.marker_keys →
      (normalize_url_for_dedupe sub.pageUrl ++ "|" ++
        submitted_day_ms env.msToDay sub.submittedAt ++ "|" ++ en) ∉
        (get_contact_existing_note_bodies env.contactPages env.noteBody env.listFuel
          cid st.cache).entry.semantic_keys →
      ((submission_to_note_html env.msToDay fn fg sub
          (some (submission_key_of env.msToDay fg en sub).2)).1 ∈
        (get_contact_existing_note_bodies env.contactPages env.noteBody env.listFuel
          cid st.cache).entry.bodies ∨
       (submission_to_note_text env.msToDay fn fg sub
          (some (submission_key_of env.msToDay fg en sub).2)).1 ∈
        (get_contact_existing_note_bodies env.contactPages env.noteBody env.listFuel
          cid st.cache).entry.bodies) →
      (processSubmission env cfg fg fn sub st).2 = .skipExact ∧
      (submission_key_of env.msToDay fg en sub).1 ∈
        (processSubmission env cfg fg fn sub st).1.seen) ∧
    (∀ (fg2 fn2 : String) (sub2 : Submission) (e2 en2 cid2 : String),
      env.extractEmail sub2 = some e2 → e2 ≠ "" →
      normalize_email e2 = some en2 → cutoffCheck cfg sub2 = true →
      env.newEmailToId en2 = some cid2 → cid2 ≠ "" →
      (submission_key_of env.msToDay fg2 en2 sub2).1 =
        (submission_key_of env.msToDay fg en sub).1 →
      ((processSubmission env cfg fg fn sub st).2 = .skipMarker ∨
        (processSubmission env cfg fg fn sub st).2 = .skipSemantic ∨
        (processSubmission env cfg fg fn sub st).2 = .skipExact) →
      (processSubmission env cfg fg2 fn2 sub2
          (processSubmission env cfg fg fn sub st).1).2 = .skipLocal ∧
      (processSubmission env cfg fg2 fn2 sub2
          (processSubmission env cfg fg fn sub st).1).1.remoteLookups =
        (processSubmission env cfg fg fn sub st).1.remoteLookups ∧
      (processSubmission env cfg fg2 fn2 sub2
          (processSubmission env cfg fg fn sub st).1).1.cache =
        (processSubmission env cfg fg fn sub st).1.cache) := by
  have helig := eligContact_some env cfg sub e en cid h1 h2 h3 h4 h5 h6
  refine ⟨?_, ?_, ?_, ?_, ?_⟩
  · exact fun hin =>
      processSubmission_local_skip env cfg fg fn sub e en cid st h1 h2 h3 h4 h5 h6 hin
  · intro hnot hmark
    simp only [processSubmission, helig]
    try dsimp only
    rw [if_neg hnot]
    simp only [processAfterLocal]
    try dsimp only
    rw [if_pos hmark]
    exact ⟨rfl, mem_setAdd_self _ _⟩
  · intro hnot hm hsem
    simp only [processSubmission, helig]
    try dsimp only
    rw [if_neg hnot]
    simp only [processAfterLocal]
    try dsimp only
    rw [if_neg hm, if_pos hsem]
    exact ⟨rfl, mem_setAdd_self _ _⟩
  · intro hnot hm hs hbody
    simp only [processSubmission, helig]
    try dsimp only
    rw [if_neg hnot]
    simp only [processAfterLocal]
    try dsimp only
    rw [if_neg hm, if_neg hs, if_pos hbody]
    exact ⟨rfl, mem_setAdd_self _ _⟩
  · intro fg2 fn2 sub2 e2 en2 cid2 g1 g2 g3 g4 g5 g6 hkey hres
    have hadd := processSubmission_remote_adds_seen env cfg fg fn sub e en cid st
      h1 h2 h3 h4 h5 h6 hres
    have hin2 : (submission_key_of env.msToDay fg2 en2 sub2).1 ∈
        (processSubmission env cfg fg fn sub st).1.seen := by
      rw [hkey]
      exact hadd
    have := processSubmission_local_skip env cfg fg2 fn2 sub2 e2 en2 cid2
      (processSubmission env cfg fg fn sub st).1 g1 g2 g3 g4 g5 g6 hin2
    exact ⟨this.1, this.2.2.1, this.2.1⟩

/-- C2 witness: at a concrete contact with one marker-carrying note, the
first occurrence skips at the marker tier and adds the key locally; the
second occurrence of the same key skips at the local tier with the remote
lookup counter and cache unchanged. -/
theorem c2_witness :
    ((processSubmission markerEnv cexCfg "aa" "F" cexSub (runInit [])).2 =
        .skipMarker ∧
      (submission_key_of markerEnv.msToDay "aa" "e@x.com" cexSub).1 ∈
        (processSubmission markerEnv cexCfg "aa" "F" cexSub (runInit [])).1.seen) ∧
    ((processSubmission markerEnv cexCfg "aa" "F" cexSub
        (processSubmission markerEnv cexCfg "aa" "F" cexSub (runInit [])).1).2 =
          .skipLocal ∧
      (processSubmission markerEnv cexCfg "aa" "F" cexSub
          (processSubmission markerEnv cexCfg "aa" "F" cexSub (runInit [])).1).1.remoteLookups =
        (processSubmission markerEnv cexCfg "aa" "F" cexSub (runInit [])).1.remoteLookups ∧
      (processSubmission markerEnv cexCfg "aa" "F" cexSub
          (processSubmission markerEnv cexCfg "aa" "F" cexSub (runInit [])).1).1.cache =
        (processSubmission markerEnv cexCfg "aa" "F" cexSub (runInit [])).1.cache) :=
  ⟨(c2_dedup_cascade markerEnv cexCfg "aa" "F" cexSub "e@x.com" "e@x.com" "c1"
      (runInit []) rfl (by decide) (by decide) (by decide) rfl (by decide)).2.1
      (by decide) (by decide),
   (c2_dedup_cascade markerEnv cexCfg "aa" "F" cexSub "e@x.com" "e@x.com" "c1"
      (runInit []) rfl (by decide) (by decide) (by decide) rfl (by decide)).2.2.2.2
      "aa" "F" cexSub "e@x.com" "e@x.com" "c1" rfl (by decide) (by decide)
      (by decide) rfl (by decide) rfl
      (Or.inl ((c2_dedup_cascade markerEnv cexCfg "aa" "F" cexSub "e@x.com"
        "e@x.com" "c1" (runInit []) rfl (by decide) (by decide) (by decide) rfl
        (by decide)).2.1 (by decide) (by decide)).1)⟩

theorem alGet_alSet_self {α : Type} (d : List (String × α)) (k : String) (v : α) :
    alGet (alSet d k v) k = some v := by
  induction d with
  | nil => simp [alSet, alGet]
  | cons kv rest ih =>
      unfold alSet
      split
      · rename_i h
        simp [alGet, h]
      · rename_i h
        simp only [alGet]
        rw [if_neg h]
        exact ih

theorem alGet_alSet_ne {α : Type} (d : List (String × α)) (k k2 : String) (v : α)
    (hne : k ≠ k2) : alGet (alSet d k2 v) k = alGet d k := by
  induction d with
  | nil =>
      simp only [alSet, alGet]
      rw [if_neg (fun hk : k2 = k => hne hk.symm)]
  | cons kv rest ih =>
      unfold alSet
      split
      · rename_i he
        have hk : kv.1 ≠ k := fun hk => hne (by rw [← hk, he])
        simp only [alGet]
        rw [if_neg hk, if_neg hk]
      · simp only [alGet]
        split
        · rfl
        · exact ih

theorem alContains_alSet {α : Type} (d : List (String × α)) (k k2 : String) (v : α)
    (h : alContains d k = true) : alContains (alSet d k2 v) k = true := by
  by_cases hk : k = k2
  · subst hk
    simp [alContains, alGet_alSet_self]
  · simp only [alContains]
    rw [alGet_alSet_ne d k k2 v hk]
    exact h

theorem get_contact_cache_mono (pages : String → Option String → NotesPage)
    (bodyOf : String → Option String) (fuel : Nat) (cid : String)
    (cache : List (String × CacheEntry)) (x : String)
    (h : alContains cache x = true) :
    alContains (get_contact_existing_note_bodies pages bodyOf fuel cid cache).cache
      x = true := by
  simp only [get_contact_existing_note_bodies]
  repeat' split
  all_goals first
    | exact h
    | exact alContains_alSet _ _ _ _ h

theorem cacheAugment_mono (cache : List (String × CacheEntry))
    (cid body key sem x : String) (h : alContains cache x = true) :
    alContains (cacheAugment cache cid body key sem) x = true := by
  unfold cacheAugment
  exact alContains_alSet _ _ _ _ h

theorem processAfterLocal_cache_mono (env : DriverEnv) (cfg : RunConfig)
    (fg fn : String) (sub : Submission) (en cid k cv npu sd sem : String)
    (st : RunState) (x : String) (h : alContains st.cache x = true) :
    alContains
      (processAfterLocal env cfg fg fn sub en cid k cv npu sd sem st).1.cache
      x = true := by
  have hfr : alContains (get_contact_existing_note_bodies env.contactPages
      env.noteBody env.listFuel cid st.cache).cache x = true :=
    get_contact_cache_mono _ _ _ _ _ _ h
  simp only [processAfterLocal]
  repeat' split
  all_goals first
    | exact hfr
    | exact cacheAugment_mono _ _ _ _ _ _ hfr

theorem processSubmission_cache_mono (env : DriverEnv) (cfg : RunConfig)
    (fg fn : String) (sub : Submission) (st : RunState) (x : String)
    (h : alContains st.cache x = true) :
    alContains (processSubmission env cfg fg fn sub st).1.cache x = true := by
  unfold processSubmission
  rcases he : eligContact env cfg sub with _ | ec
  · exact h
  · dsimp only
    split
    · exact h
    · exact processAfterLocal_cache_mono env cfg fg fn sub _ _ _ _ _ _ _ _ _ h

theorem run_cache_mono (env : DriverEnv) (cfg : RunConfig)
    (items : List (String × String × Submission)) :
    ∀ (st : RunState) (x : String), alContains st.cache x = true →
      alContains (run_create_notes env cfg items st).cache x = true := by
  induction items with
  | nil => exact fun st x h => h
  | cons item rest ih =>
      intro st x h
      obtain ⟨fg, fn, sub⟩ := item
      simp only [run_create_notes]
      split
      · exact h
      · split
        · exact h
        · have h2 := processSubmission_cache_mono env cfg fg fn sub
            { st with scanned := st.scanned + 1 } x h
          split
          · exact h2
          · exact ih _ x h2

/-- C9: per-contact existing-note data is fetched once, cached, and
bounded — a cached contact is answered from the cache with nothing
fetched; at most `MAX_NOTES_TO_CHECK_PER_CONTACT` note bodies are ever
inspected; the cap warning fires exactly when the listed note ids reach
the cap; a fetch populates the cache; and a cached contact stays cached
for the remainder of the run. -/
theorem c9_contact_cache :
    (∀ (pages : String → Option String → NotesPage)
        (bodyOf : String → Option String) (fuel : Nat) (cid : String)
        (cache : List (String × CacheEntry)) (e : CacheEntry),
        alGet cache cid = some e →
        get_contact_existing_note_bodies pages bodyOf fuel cid cache =
          ⟨e, cache, false, []⟩) ∧
    (∀ (pages : String → Option String → NotesPage)
        (bodyOf : String → Option String) (fuel : Nat) (cid : String)
        (cache : List (String × CacheEntry)),
        (get_contact_existing_note_bodies pages bodyOf fuel cid cache).inspected.length ≤
          MAX_NOTES_TO_CHECK_PER_CONTACT) ∧
    (∀ (pages : String → Option String → NotesPage)
        (bodyOf : String → Option String) (fuel : Nat) (cid : String)
        (cache : List (String × CacheEntry)),
        alGet cache cid = none →
        ((get_contact_existing_note_bodies pages bodyOf fuel cid cache).warned =
            true ↔
          MAX_NOTES_TO_CHECK_PER_CONTACT ≤
            (list_note_ids_for_contact (pages cid) fuel none []).length)) ∧
    (∀ (pages : String → Option String → NotesPage)
        (bodyOf : String → Option String) (fuel : Nat) (cid : String)
        (cache : List (String × CacheEntry)),
        alGet cache cid = none →
        alContains (get_contact_existing_note_bodies pages bodyOf fuel cid
          cache).cache cid = true) ∧
    (∀ (env : DriverEnv) (cfg : RunConfig)
        (items : List (String × String × Submission)) (st : RunState)
        (cid : String), alContains st.cache cid = true →
        alContains (run_create_notes env cfg items st).cache cid = true) := by
  refine ⟨?_, ?_, ?_, ?_, ?_⟩
  · intro pages bodyOf fuel cid cache e h
    unfold get_contact_existing_note_bodies
    rw [h]
  · intro pages bodyOf fuel cid cache
    unfold get_contact_existing_note_bodies
    rcases h : alGet cache cid with _ | e
    · dsimp only
      split
      · simp
      · split
        · rename_i hw
          rw [List.length_take]
          exact Nat.min_le_left _ _
        · rename_i hw
          simp only [decide_eq_true_eq, not_le] at hw
          dsimp only
          omega
    · simp
  · intro pages bodyOf fuel cid cache h
    unfold get_contact_existing_note_bodies
    rw [h]
    dsimp only
    split
    · rename_i hids
      rw [hids]
      simp [MAX_NOTES_TO_CHECK_PER_CONTACT]
    · simp [decide_eq_true_iff]
  · intro pages bodyOf fuel cid cache h
    unfold get_contact_existing_note_bodies
    rw [h]
    dsimp only
    split
    · simp only [alContains, alGet_alSet_self, Option.isSome_some]
    · simp only [alContains, alGet_alSet_self, Option.isSome_some]
  · intro env cfg items st cid h
    exact run_cache_mono env cfg items st cid h

/-- C9 witness: the cache behaviour at concrete inputs — a cached contact
is answered from the cache, a 501-id listing is truncated to 500 inspected
bodies with the warning set, and a concrete run keeps the contact
cached. -/
theorem c9_witness :
    get_contact_existing_note_bodies (fun _ _ => ⟨[], none⟩) (fun _ => none) 1 "c1"
        [("c1", ⟨["b"], [], []⟩)] = ⟨⟨["b"], [], []⟩, [("c1", ⟨["b"], [], []⟩)], false, []⟩ ∧
    (get_contact_existing_note_bodies (fun _ _ => ⟨[], none⟩) (fun _ => none) 1 "c1"
        []).inspected.length ≤ MAX_NOTES_TO_CHECK_PER_CONTACT ∧
    ((get_contact_existing_note_bodies (fun _ _ => ⟨["n"], some "A"⟩) (fun _ => none)
        600 "c1" []).warned = true ↔
      MAX_NOTES_TO_CHECK_PER_CONTACT ≤
        (list_note_ids_for_contact ((fun (_ : String) (_ : Option String) =>
          (⟨["n"], some "A"⟩ : NotesPage)) "c1") 600 none []).length) ∧
    alContains (get_contact_existing_note_bodies (fun _ _ => ⟨[], none⟩)
      (fun _ => none) 1 "c1" []).cache "c1" = true ∧
    alContains (run_create_notes cexEnv cexCfg [("aa", "F", cexSub)]
      { runInit [] with cache := [("c1", ⟨[], [], []⟩)] }).cache "c1" = true :=
  ⟨c9_contact_cache.1 _ _ 1 "c1" [("c1", ⟨["b"], [], []⟩)] ⟨["b"], [], []⟩ rfl,
   c9_contact_cache.2.1 _ _ 1 "c1" [],
   c9_contact_cache.2.2.1 _ _ 600 "c1" [] rfl,
   c9_contact_cache.2.2.2.1 _ _ 1 "c1" [] rfl,
   c9_contact_cache.2.2.2.2 cexEnv cexCfg [("aa", "F", cexSub)]
     { runInit [] with cache := [("c1", ⟨[], [], []⟩)] } "c1" (by decide)⟩

theorem classifyGo_marker (bodies : List String) :
    ∀ (e0 : CacheEntry) (k : String),
      k ∈ (classifyGo bodies e0).marker_keys ↔
        k ∈ e0.marker_keys ∨ ∃ b ∈ bodies, extract_marker_key b = some k := by
  induction bodies with
  | nil =>
      intro e0 k
      simp [classifyGo]
  | cons b bs ih =>
      intro e0 k
      simp only [classifyGo]
      rw [ih]
      have hstep : (classifyStep e0 b).marker_keys =
          (match extract_marker_key b with
           | some k0 => setAdd e0.marker_keys k0
           | none => e0.marker_keys) := by
        unfold classifyStep
        rcases extract_marker_key b with _ | k0
        · dsimp only
          split <;> rfl
        · rfl
      rw [hstep]
      rcases hm : extract_marker_key b with _ | k0
      · simp only []
        constructor
        · rintro (h | h)
          · exact Or.inl h
          · obtain ⟨b2, hb2, he⟩ := h
            exact Or.inr ⟨b2, List.mem_cons_of_mem _ hb2, he⟩
        · rintro (h | ⟨b2, hb2, he⟩)
          · exact Or.inl h
          · rcases List.mem_cons.mp hb2 with rfl | hb2
            · rw [hm] at he
              simp at he
            · exact Or.inr ⟨b2, hb2, he⟩
      · rw [mem_setAdd_iff]
        constructor
        · rintro ((h | rfl) | h)
          · exact Or.inl h
          · exact Or.inr ⟨b, List.mem_cons_self _ _, hm⟩
          · obtain ⟨b2, hb2, he⟩ := h
            exact Or.inr ⟨b2, List.mem_cons_of_mem _ hb2, he⟩
        · rintro (h | ⟨b2, hb2, he⟩)
          · exact Or.inl (Or.inl h)
          · rcases List.mem_cons.mp hb2 with rfl | hb2
            · rw [hm] at he
              exact Or.inl (Or.inr (Option.some_injective _ he).symm)
            · exact Or.inr ⟨b2, hb2, he⟩

theorem classifyGo_semantic (bodies : List String) :
    ∀ (e0 : CacheEntry) (s : String),
      s ∈ (classifyGo bodies e0).semantic_keys ↔
        s ∈ e0.semantic_keys ∨
          ∃ b ∈ bodies, extract_marker_key b = none ∧
            extract_semantic_key b = some s := by
  induction bodies with
  | nil =>
      intro e0 s
      simp [classifyGo]
  | cons b bs ih =>
      intro e0 s
      simp only [classifyGo]
      rw [ih]
      have hstep : (classifyStep e0 b).semantic_keys =
          (match extract_marker_key b with
           | some _ => e0.semantic_keys
           | none =>
               match extract_semantic_key b with
               | some s0 => setAdd e0.semantic_keys s0
               | none => e0.semantic_keys) := by
        unfold classifyStep
        rcases extract_marker_key b with _ | k0
        · dsimp only
          rcases extract_semantic_key b with _ | s0 <;> rfl
        · rfl
      rw [hstep]
      rcases hm : extract_marker_key b with _ | k0
      · rcases hs : extract_semantic_key b with _ | s0
        · simp only []
          constructor
          · rintro (h | h)
            · exact Or.inl h
            · obtain ⟨b2, hb2, he⟩ := h
              exact Or.inr ⟨b2, List.mem_cons_of_mem _ hb2, he⟩
          · rintro (h | ⟨b2, hb2, he⟩)
            · exact Or.inl h
            · rcases List.mem_cons.mp hb2 with rfl | hb2
              · rw [hs] at he
                simp at he
              · exact Or.inr ⟨b2, hb2, he⟩
        · simp only []
          rw [mem_setAdd_iff]
          constructor
          · rintro ((h | rfl) | h)
            · exact Or.inl h
            · exact Or.inr ⟨b, List.mem_cons_self _ _, hm, hs⟩
            · obtain ⟨b2, hb2, he⟩ := h
              exact Or.inr ⟨b2, List.mem_cons_of_mem _ hb2, he⟩
          · rintro (h | ⟨b2, hb2, hm2, he⟩)
            · exact Or.inl (Or.inl h)
            · rcases List.mem_cons.mp hb2 with rfl | hb2
              · rw [hs] at he
                exact Or.inl (Or.inr (Option.some_injective _ he).symm)
              · exact Or.inr ⟨b2, hb2, hm2, he⟩
      · simp only []
        constructor
        · rintro (h | h)
          · exact Or.inl h
          · obtain ⟨b2, hb2, he⟩ := h
            exact Or.inr ⟨b2, List.mem_cons_of_mem _ hb2, he⟩
        · rintro (h | ⟨b2, hb2, hm2, he⟩)
          · exact Or.inl h
          · rcases List.mem_cons.mp hb2 with rfl | hb2
            · rw [hm] at hm2
              simp at hm2
            · exact Or.inr ⟨b2, hb2, hm2, he⟩

/-- C10: when a contact's dedup cache entry is built, a note body with an
extractable marker contributes exactly its marker key and is never
consulted for a semantic key; semantic keys come only from bodies with no
extractable marker; hence when every body carries a marker the semantic
set is empty. -/
theorem c10_marker_semantic_exclusive :
    (∀ (bodies : List String) (k : String),
        k ∈ (classifyNoteBodies bodies).marker_keys ↔
          ∃ b ∈ bodies, extract_marker_key b = some k) ∧
    (∀ (bodies : List String) (s : String),
        s ∈ (classifyNoteBodies bodies).semantic_keys ↔
          ∃ b ∈ bodies, extract_marker_key b = none ∧
            extract_semantic_key b = some s) ∧
    (∀ bodies : List String, (∀ b ∈ bodies, (extract_marker_key b).isSome) →
        (classifyNoteBodies bodies).semantic_keys = []) := by
  have hm : ∀ (bodies : List String) (k : String),
      k ∈ (classifyNoteBodies bodies).marker_keys ↔
        ∃ b ∈ bodies, extract_marker_key b = some k := by
    intro bodies k
    unfold classifyNoteBodies
    rw [classifyGo_marker]
    simp
  have hs : ∀ (bodies : List String) (s : String),
      s ∈ (classifyNoteBodies bodies).semantic_keys ↔
        ∃ b ∈ bodies, extract_marker_key b = none ∧
          extract_semantic_key b = some s := by
    intro bodies s
    unfold classifyNoteBodies
    rw [classifyGo_semantic]
    simp
  refine ⟨hm, hs, ?_⟩
  intro bodies hall
  rw [List.eq_nil_iff_forall_not_mem]
  intro s hmem
  obtain ⟨b, hb, hnone, _⟩ := (hs bodies s).mp hmem
  have := hall b hb
  rw [hnone] at this
  simp at this

/-- C10 witness: the characterization at a concrete pair of note bodies —
one with a marker, one with only semantic content. -/
theorem c10_witness :
    "aa:bb" ∈ (classifyNoteBodies ["x hs_form_submission_key=aa:bb y"]).marker_keys ∧
    (classifyNoteBodies ["x hs_form_submission_key=aa:bb y"]).semantic_keys = [] :=
  ⟨(c10_marker_semantic_exclusive.1 ["x hs_form_submission_key=aa:bb y"] "aa:bb").mpr
      ⟨"x hs_form_submission_key=aa:bb y", by decide, by decide⟩,
   c10_marker_semantic_exclusive.2.2 ["x hs_form_submission_key=aa:bb y"]
      (by intro b hb; rcases List.mem_singleton.mp hb with rfl; decide)⟩

/-- Assigning a key absent from a dict appends the pair at the end. -/
theorem alSet_fresh {α : Type} (d : List (String × α)) (k : String) (v : α)
    (h : alContains d k = false) : alSet d k v = d ++ [(k, v)] := by
  induction d with
  | nil => rfl
  | cons kv rest ih =>
      simp only [alContains, alGet] at h
      unfold alSet
      split
      · rename_i he
        rw [he] at h
        simp at h
      · rename_i he
        simp only [List.cons_append, List.cons.injEq, true_and]
        split at h
        · simp at h
        · exact ih (by simpa [alContains] using h)

/-- Under duplicate-free lowercase field names, the first pass of
`build_canonical_fields` is exactly the normalization map over the active
items, appended in list order. -/
theorem rawFieldsGo_fresh :
    ∀ (values : List (String × String)) (d : PyDict),
      ((activeItems values).map (fun i => pyLower i.1)).Nodup →
      (∀ item ∈ activeItems values, alContains d (pyLower item.1) = false) →
      rawFieldsGo values d = d ++ (activeItems values).map normPair := by
  intro values
  induction values with
  | nil => intro d _ _; simp [rawFieldsGo, activeItems]
  | cons item rest ih =>
      intro d hnodup hfresh
      by_cases hobj : pyLower item.1 = "objecttypeid"
      · have hact : activeItems (item :: rest) = activeItems rest := by
          simp [activeItems, List.filter_cons, hobj]
        rw [hact] at hnodup hfresh ⊢
        simp only [rawFieldsGo, if_pos hobj]
        exact ih d hnodup hfresh
      · by_cases hne : item.1 = ""
        · have hact : activeItems (item :: rest) = activeItems rest := by
            simp [activeItems, List.filter_cons, hne]
          rw [hact] at hnodup hfresh ⊢
          simp only [rawFieldsGo]
          rw [if_neg hobj, if_neg (by simp [hne])]
          exact ih d hnodup hfresh
        · have hact : activeItems (item :: rest) = item :: activeItems rest := by
            simp [activeItems, List.filter_cons, hobj, hne]
          rw [hact] at hnodup hfresh ⊢
          have hfr : alContains d (pyLower item.1) = false :=
            hfresh item (List.mem_cons_self _ _)
          have hval : (if item.2 ≠ "" then normalize_value item.2 else "") =
              normalize_value item.2 := by
            by_cases hv : item.2 = ""
            · rw [if_neg (by simp [hv]), hv]
              rfl
            · rw [if_pos hv]
          simp only [rawFieldsGo]
          rw [if_neg hobj, if_pos hne]
          simp only [hval]
          rw [if_pos (Or.inr (by simp [hfr]))]
          rw [alSet_fresh d _ _ hfr]
          rw [List.map_cons] at hnodup
          have hnc := List.nodup_cons.mp hnodup
          have hfresh2 : ∀ it ∈ activeItems rest,
              alContains (d ++ [(pyLower item.1, normalize_value item.2)])
                (pyLower it.1) = false := by
            intro it hit
            have hne2 : pyLower it.1 ≠ pyLower item.1 := by
              intro hcon
              exact hnc.1 (by rw [← hcon]; exact List.mem_map_of_mem _ hit)
            rw [← alSet_fresh d _ _ hfr]
            have hcontains := hfresh it (List.mem_cons_of_mem _ hit)
            rw [alContains, alGet_alSet_ne d _ _ _ hne2]
            exact hcontains
          rw [ih _ hnc.2 hfresh2]
          simp [normPair]

/-- Dict membership is membership in the key list. -/
theorem alContains_iff_mem {α : Type} (d : List (String × α)) (k : String) :
    alContains d k = true ↔ k ∈ d.map Prod.fst := by
  induction d with
  | nil => simp [alContains, alGet]
  | cons kv rest ih =>
      simp only [alContains, alGet, List.map_cons, List.mem_cons]
      by_cases hk : kv.1 = k
      · simp [hk]
      · rw [if_neg hk]
        simp only [alContains] at ih
        rw [ih]
        constructor
        · exact Or.inr
        · rintro (h | h)
          · exact absurd h.symm hk
          · exact h

/-- Lookup in a concatenated dict tries the left part first. -/
theorem alGet_append {α : Type} (l1 l2 : List (String × α)) (k : String) :
    alGet (l1 ++ l2) k =
      match alGet l1 k with | some v => some v | none => alGet l2 k := by
  induction l1 with
  | nil => simp [alGet]
  | cons kv rest ih =>
      simp only [List.cons_append, alGet]
      split
      · rfl
      · exact ih

/-- Lookup in a dict with duplicate-free keys is invariant under
permutation of the entry list. -/
theorem alGet_eq_of_perm {α : Type} {d1 d2 : List (String × α)}
    (hp : d1.Perm d2) (hn : (d1.map Prod.fst).Nodup) (k : String) :
    alGet d1 k = alGet d2 k := by
  induction hp with
  | nil => rfl
  | cons x _ ih =>
      rw [List.map_cons, List.nodup_cons] at hn
      simp only [alGet]
      split
      · rfl
      · exact ih hn.2
  | swap x y l =>
      rw [List.map_cons, List.map_cons, List.nodup_cons] at hn
      have hxy : y.1 ≠ x.1 := fun hc => hn.1 (by rw [hc]; exact List.mem_cons_self _ _)
      simp only [alGet]
      by_cases hy : y.1 = k
      · rw [if_pos hy, if_neg (fun hx : x.1 = k => hxy (hy.trans hx.symm)), if_pos hy]
      · rw [if_neg hy]
        by_cases hx : x.1 = k
        · rw [if_pos hx, if_pos hx]
        · rw [if_neg hx, if_neg hx, if_neg hy]
  | trans h1 h2 ih1 ih2 =>
      rw [ih1 hn, ih2 ((List.Perm.nodup_iff (h1.map Prod.fst)).mp hn)]

/-- Ordered insertion permutes the element onto the list. -/
theorem insertLe_perm {α : Type} (le : α → α → Bool) (x : α) (l : List α) :
    (insertLe le x l).Perm (x :: l) := by
  induction l with
  | nil => exact List.Perm.refl _
  | cons y ys ih =>
      simp only [insertLe]
      split
      · exact List.Perm.refl _
      · exact (ih.cons y).trans (List.Perm.swap x y ys)

/-- The stable sort is a permutation of its input. -/
theorem stableSortBy_perm {α : Type} (le : α → α → Bool) (l : List α) :
    (stableSortBy le l).Perm l := by
  have main : ∀ (l acc : List α),
      (l.foldl (fun acc x => insertLe le x acc) acc).Perm (acc ++ l) := by
    intro l
    induction l with
    | nil => intro acc; simp
    | cons x xs ih =>
        intro acc
        simp only [List.foldl_cons]
        exact (ih (insertLe le x acc)).trans
          (((insertLe_perm le x acc).append_right xs).trans
            (by simpa using List.perm_middle.symm))
  simpa [stableSortBy] using main l []

/-- Ordered insertion preserves sortedness for a total transitive
comparison. -/
theorem insertLe_sorted {α : Type} (le : α → α → Bool)
    (htot : ∀ a b, le a b || le b a)
    (htrans : ∀ a b c, le a b = true → le b c = true → le a c = true)
    (x : α) (l : List α) (hs : l.Pairwise (fun a b => le a b = true)) :
    (insertLe le x l).Pairwise (fun a b => le a b = true) := by
  induction l with
  | nil => simp [insertLe]
  | cons y ys ih =>
      rw [List.pairwise_cons] at hs
      simp only [insertLe]
      split
      · rename_i hcond
        rw [Bool.and_eq_true, Bool.not_eq_true'] at hcond
        rw [List.pairwise_cons]
        refine ⟨?_, List.pairwise_cons.mpr hs⟩
        intro z hz
        rcases List.mem_cons.mp hz with hz | hz
        · rw [hz]; exact hcond.1
        · exact htrans x y z hcond.1 (hs.1 z hz)
      · rename_i hcond
        have hyx : le y x = true := by
          by_cases h : le y x = true
          · exact h
          · by_cases hxy : le x y = true
            · exfalso
              apply hcond
              rw [Bool.and_eq_true, Bool.not_eq_true']
              exact ⟨hxy, Bool.eq_false_iff.mpr h⟩
            · have := htot x y
              rw [Bool.or_eq_true] at this
              rcases this with h2 | h2
              · exact absurd h2 hxy
              · exact h2
        rw [List.pairwise_cons]
        refine ⟨?_, ih hs.2⟩
        intro z hz
        have := (insertLe_perm le x ys).mem_iff.mp hz
        rcases List.mem_cons.mp this with hz2 | hz2
        · rw [hz2]; exact hyx
        · exact hs.1 z hz2

/-- The stable sort sorts, for a total transitive comparison. -/
theorem stableSortBy_sorted {α : Type} (le : α → α → Bool)
    (htot : ∀ a b, le a b || le b a)
    (htrans : ∀ a b c, le a b = true → le b c = true → le a c = true)
    (l : List α) :
    (stableSortBy le l).Pairwise (fun a b => le a b = true) := by
  have main : ∀ (l acc : List α),
      acc.Pairwise (fun a b => le a b = true) →
      (l.foldl (fun acc x => insertLe le x acc) acc).Pairwise
        (fun a b => le a b = true) := by
    intro l
    induction l with
    | nil => intro acc h; simpa using h
    | cons x xs ih =>
        intro acc h
        exact ih _ (insertLe_sorted le htot htrans x acc h)
  exact main l [] (by simp)

/-- Sorting by the string order maps permuted inputs to the same
list. -/
theorem stableSortBy_eq_of_perm (l1 l2 : List String) (hp : l1.Perm l2) :
    stableSortBy (fun a b => decide (a ≤ b)) l1 =
      stableSortBy (fun a b => decide (a ≤ b)) l2 := by
  have htot : ∀ a b : String, (decide (a ≤ b) || decide (b ≤ a)) = true := by
    intro a b
    rw [Bool.or_eq_true, decide_eq_true_iff, decide_eq_true_iff]
    exact le_total a b
  have htrans : ∀ a b c : String, decide (a ≤ b) = true → decide (b ≤ c) = true →
      decide (a ≤ c) = true := by
    intro a b c h1 h2
    rw [decide_eq_true_iff] at h1 h2 ⊢
    exact le_trans h1 h2
  have hs1 : List.Sorted (fun a b : String => a ≤ b)
      (stableSortBy (fun a b => decide (a ≤ b)) l1) :=
    (stableSortBy_sorted _ htot htrans l1).imp (fun h => decide_eq_true_iff.mp h)
  have hs2 : List.Sorted (fun a b : String => a ≤ b)
      (stableSortBy (fun a b => decide (a ≤ b)) l2) :=
    (stableSortBy_sorted _ htot htrans l2).imp (fun h => decide_eq_true_iff.mp h)
  haveI : IsAntisymm String (fun a b : String => a ≤ b) := ⟨fun a b => le_antisymm⟩
  exact List.eq_of_perm_of_sorted
    (((stableSortBy_perm _ l1).trans hp).trans (stableSortBy_perm _ l2).symm) hs1 hs2

/-- The sorted-keys JSON rendering of a dict with duplicate-free
keys depends only on the set of entries, not their insertion order. -/
theorem jsonObjSorted_congr (d1 d2 : PyDict) (hp : d1.Perm d2)
    (hn : (d1.map Prod.fst).Nodup) : jsonObjSorted d1 = jsonObjSorted d2 := by
  have hkeys : sortedKeys d1 = sortedKeys d2 :=
    stableSortBy_eq_of_perm _ _ (hp.map Prod.fst)
  have hget : ∀ k, alGet d1 k = alGet d2 k := alGet_eq_of_perm hp hn
  simp only [jsonObjSorted, hkeys, dictGetD, hget]

/-- Key list of a dict after assignment: unchanged on update, the new
key appended on insert. -/
theorem alSet_keys {α : Type} (d : List (String × α)) (k : String) (v : α) :
    (alSet d k v).map Prod.fst =
      if alContains d k then d.map Prod.fst else d.map Prod.fst ++ [k] := by
  induction d with
  | nil => simp [alSet, alContains, alGet]
  | cons kv rest ih =>
      by_cases hk : kv.1 = k
      · simp [alSet, alContains, alGet, hk]
      · simp only [alSet, if_neg hk, List.map_cons, alContains, alGet, if_neg hk]
        rw [ih]
        simp only [alContains]
        split
        · rfl
        · simp

/-- Assignment preserves duplicate-freeness of the key list. -/
theorem alSet_nodup {α : Type} (d : List (String × α)) (k : String) (v : α)
    (h : (d.map Prod.fst).Nodup) : ((alSet d k v).map Prod.fst).Nodup := by
  rw [alSet_keys]
  split
  · exact h
  · rename_i hc
    rw [List.nodup_append]
    refine ⟨h, List.nodup_singleton k, ?_⟩
    intro a ha hb
    rw [List.mem_singleton] at hb
    subst hb
    exact hc ((alContains_iff_mem d a).mpr ha)

/-- Conditional assignment preserves duplicate-freeness of the key
list. -/
theorem optSet_nodup (d : PyDict) (k : String) (o : Option String)
    (h : (d.map Prod.fst).Nodup) : ((optSet d k o).map Prod.fst).Nodup := by
  cases o with
  | none => exact h
  | some v => exact alSet_nodup d k v h

/-- Keys of a conditional assignment: the assigned key or a key of
the base dict. -/
theorem alContains_optSet (d : PyDict) (k0 : String) (o : Option String) (k : String)
    (h : alContains (optSet d k0 o) k = true) : k = k0 ∨ alContains d k = true := by
  cases o with
  | none => exact Or.inr h
  | some v =>
      by_cases hk : k = k0
      · exact Or.inl hk
      · right
        simp only [optSet, alContains] at h
        rw [alGet_alSet_ne d k k0 v hk] at h
        exact h

/-- The front pass of `build_canonical_fields` only writes the five
canonical field names. -/
theorem canonicalFront_keys (raw : PyDict) (k : String)
    (h : alContains (canonicalFront raw) k = true) :
    k = "email" ∨ k = "name" ∨ k = "phone" ∨ k = "country" ∨ k = "company" := by
  simp only [canonicalFront] at h
  rcases alContains_optSet _ _ _ _ h with h | h
  · exact Or.inr (Or.inr (Or.inr (Or.inr h)))
  rcases alContains_optSet _ _ _ _ h with h | h
  · exact Or.inr (Or.inr (Or.inr (Or.inl h)))
  rcases alContains_optSet _ _ _ _ h with h | h
  · exact Or.inr (Or.inr (Or.inr (Or.inl h)))
  rcases alContains_optSet _ _ _ _ h with h | h
  · exact Or.inr (Or.inr (Or.inl h))
  rcases alContains_optSet _ _ _ _ h with h | h
  · exact Or.inr (Or.inl h)
  rcases alContains_optSet _ _ _ _ h with h | h
  · exact Or.inl h
  · simp [alContains, alGet] at h

/-- Each of the five canonical field names is in the processed-keys
list skipped by the remaining-fields pass. -/
theorem frontKeys_processed (k : String)
    (h : k = "email" ∨ k = "name" ∨ k = "phone" ∨ k = "country" ∨ k = "company") :
    processedKeys.contains k = true := by
  rcases h with rfl | rfl | rfl | rfl | rfl <;> decide

/-- The front pass yields duplicate-free keys. -/
theorem canonicalFront_nodup (raw : PyDict) :
    ((canonicalFront raw).map Prod.fst).Nodup := by
  simp only [canonicalFront]
  apply optSet_nodup
  apply optSet_nodup
  apply optSet_nodup
  apply optSet_nodup
  apply optSet_nodup
  apply optSet_nodup
  simp

/-- The remaining-fields pass appends the filtered raw entries when
the raw keys are duplicate-free and fresh for the accumulator. -/
theorem remainingGo_char :
    ∀ (raw c : PyDict), (raw.map Prod.fst).Nodup →
      (∀ kv ∈ raw, remainingPred kv = true → alContains c kv.1 = false) →
      remainingGo raw c = c ++ raw.filter remainingPred := by
  intro raw
  induction raw with
  | nil => intro c _ _; simp [remainingGo]
  | cons kv rest ih =>
      intro c hnodup hfresh
      rw [List.map_cons, List.nodup_cons] at hnodup
      by_cases hP : ¬ processedKeys.contains kv.1 = true ∧ kv.2 ≠ ""
      · have hpt : remainingPred kv = true := decide_eq_true hP
        have hfr : alContains c kv.1 = false :=
          hfresh kv (List.mem_cons_self _ _) hpt
        simp only [remainingGo, if_pos hP]
        rw [alSet_fresh c kv.1 kv.2 hfr]
        rw [List.filter_cons, if_pos hpt]
        have hfresh2 : ∀ kv' ∈ rest, remainingPred kv' = true →
            alContains (c ++ [(kv.1, kv.2)]) kv'.1 = false := by
          intro kv' hmem hpt'
          have h1 : alContains c kv'.1 = false :=
            hfresh kv' (List.mem_cons_of_mem _ hmem) hpt'
          have hne : kv.1 ≠ kv'.1 := by
            intro hc
            exact hnodup.1 (by rw [hc]; exact List.mem_map_of_mem _ hmem)
          simp only [alContains, alGet_append]
          simp only [alContains] at h1
          cases hg : alGet c kv'.1 with
          | some v => rw [hg] at h1; simp at h1
          | none => simp [alGet, if_neg hne]
        rw [ih (c ++ [(kv.1, kv.2)]) hnodup.2 hfresh2]
        simp
      · have hpf : remainingPred kv = false := decide_eq_false hP
        simp only [remainingGo, if_neg hP]
        rw [List.filter_cons, if_neg (by simp [hpf])]
        exact ih c hnodup.2
          (fun kv' hmem hpt' => hfresh kv' (List.mem_cons_of_mem _ hmem) hpt')

/-- The keys of the normalized active items are the lowercased names. -/
theorem mapFst_normPair (vs : List (String × String)) :
    ((activeItems vs).map normPair).map Prod.fst =
      (activeItems vs).map (fun i => pyLower i.1) := by
  rw [List.map_map]
  rfl

/-- C4 (amended): when the active field names are duplicate-free after
lowercasing, the fallback identity is order-independent: two values lists
with the same normalized name/value pairs (arbitrary list order and
surrounding whitespace) give the same `compute_dedupe_keys` output and the
same fallback submission key in `run_create_notes`. The original claim
omits the duplicate-free condition: with a repeated field name the
last-non-empty-value-wins pass makes the hash order-dependent
(`c4_counterexample`). -/
theorem c4_fallback_identity_order_independent (msToDay : Int → String) (email page_url : String) (ts : Option Int)
    (fg en cid pu : String) (vs1 vs2 : List (String × String))
    (hperm : ((activeItems vs1).map normPair).Perm ((activeItems vs2).map normPair))
    (hnodup : ((activeItems vs1).map (fun i => pyLower i.1)).Nodup) :
    compute_dedupe_keys msToDay email page_url ts (build_canonical_fields vs1) =
      compute_dedupe_keys msToDay email page_url ts (build_canonical_fields vs2) ∧
    submission_key_of msToDay fg en ⟨cid, pu, ts, vs1⟩ =
      submission_key_of msToDay fg en ⟨cid, pu, ts, vs2⟩ := by
  have hraw1 : rawFieldsPass vs1 = (activeItems vs1).map normPair := by
    have := rawFieldsGo_fresh vs1 [] hnodup (fun _ _ => rfl)
    simpa [rawFieldsPass] using this
  have hnodup2 : ((activeItems vs2).map (fun i => pyLower i.1)).Nodup := by
    rw [← mapFst_normPair]
    rw [← (hperm.map Prod.fst).nodup_iff]
    rw [mapFst_normPair]
    exact hnodup
  have hraw2 : rawFieldsPass vs2 = (activeItems vs2).map normPair := by
    have := rawFieldsGo_fresh vs2 [] hnodup2 (fun _ _ => rfl)
    simpa [rawFieldsPass] using this
  have hnraw1 : ((rawFieldsPass vs1).map Prod.fst).Nodup := by
    rw [hraw1, mapFst_normPair]
    exact hnodup
  have hpraw : (rawFieldsPass vs1).Perm (rawFieldsPass vs2) := by
    rw [hraw1, hraw2]
    exact hperm
  have hnraw2 : ((rawFieldsPass vs2).map Prod.fst).Nodup :=
    ((hpraw.map Prod.fst).nodup_iff).mp hnraw1
  have hget : ∀ k, alGet (rawFieldsPass vs1) k = alGet (rawFieldsPass vs2) k :=
    alGet_eq_of_perm hpraw hnraw1
  have hfs : ∀ ks, firstSynonym (rawFieldsPass vs1) ks =
      firstSynonym (rawFieldsPass vs2) ks := by
    intro ks
    induction ks with
    | nil => rfl
    | cons k ks ih => simp only [firstSynonym, hget k, ih]
  have hfront : canonicalFront (rawFieldsPass vs1) = canonicalFront (rawFieldsPass vs2) := by
    simp only [canonicalFront, canonEmailOf, canonNameOf, canonPhoneCountryOf,
      alContains, hget, hfs]
  have hchar : ∀ vs, ((rawFieldsPass vs).map Prod.fst).Nodup →
      build_canonical_fields vs =
        canonicalFront (rawFieldsPass vs) ++ (rawFieldsPass vs).filter remainingPred := by
    intro vs hn
    simp only [build_canonical_fields]
    apply remainingGo_char _ _ hn
    intro kv _ hpt
    cases hc : alContains (canonicalFront (rawFieldsPass vs)) kv.1 with
    | false => rfl
    | true =>
        exfalso
        have hmem5 := canonicalFront_keys _ _ hc
        have hproc := frontKeys_processed _ hmem5
        have := of_decide_eq_true hpt
        exact this.1 hproc
  have hb1 := hchar vs1 hnraw1
  have hb2 := hchar vs2 hnraw2
  have hbp : (build_canonical_fields vs1).Perm (build_canonical_fields vs2) := by
    rw [hb1, hb2, ← hfront]
    exact List.Perm.append_left _ (hpraw.filter _)
  have hbn : ((build_canonical_fields vs1).map Prod.fst).Nodup := by
    rw [hb1, List.map_append, List.nodup_append]
    refine ⟨canonicalFront_nodup _, ?_, ?_⟩
    · exact hnraw1.sublist ((List.filter_sublist _).map Prod.fst)
    · intro a ha hb
      have hac : alContains (canonicalFront (rawFieldsPass vs1)) a = true :=
        (alContains_iff_mem _ _).mpr ha
      have hproc := frontKeys_processed _ (canonicalFront_keys _ _ hac)
      rw [List.mem_map] at hb
      obtain ⟨kv, hkv, hkva⟩ := hb
      rw [List.mem_filter] at hkv
      have := of_decide_eq_true hkv.2
      rw [hkva] at this
      exact this.1 hproc
  have hjson : jsonObjSorted (build_canonical_fields vs1) =
      jsonObjSorted (build_canonical_fields vs2) :=
    jsonObjSorted_congr _ _ hbp hbn
  constructor
  · simp only [compute_dedupe_keys, strictJsonPayload, hjson]
  · by_cases hcid : cid ≠ ""
    · simp only [submission_key_of, if_pos hcid]
    · simp only [submission_key_of, if_neg hcid, strictJsonPayload, hjson]

/-- C4 counterexample: two values lists with the same name/value
pairs in different order — the field name repeats, so the
last-non-empty-value-wins first pass of `build_canonical_fields` keeps a
different value — produce different strict hashes in `compute_dedupe_keys`
and different fallback submission keys, refuting unconditional order
independence. -/
theorem c4_counterexample :
    (compute_dedupe_keys msZero "" "" none (build_canonical_fields dupVals1)).1 ≠
      (compute_dedupe_keys msZero "" "" none (build_canonical_fields dupVals2)).1 ∧
    submission_key_of msZero "aa" "e@x.com" ⟨"", "", none, dupVals1⟩ ≠
      submission_key_of msZero "aa" "e@x.com" ⟨"", "", none, dupVals2⟩ := by
  constructor <;> decide

/-- C4 witness: concrete values lists differing in order, case and
whitespace with duplicate-free names satisfy the hypotheses, and the
amended theorem applies. -/
theorem c4_witness :
    ((activeItems wvs1).map normPair).Perm ((activeItems wvs2).map normPair) ∧
    ((activeItems wvs1).map (fun i => pyLower i.1)).Nodup ∧
    (compute_dedupe_keys msZero "E@x.com" "" none (build_canonical_fields wvs1) =
        compute_dedupe_keys msZero "E@x.com" "" none (build_canonical_fields wvs2) ∧
      submission_key_of msZero "F" "e@x.com" ⟨"", "p", none, wvs1⟩ =
        submission_key_of msZero "F" "e@x.com" ⟨"", "p", none, wvs2⟩) :=
  ⟨by decide, by decide,
    c4_fallback_identity_order_independent msZero "E@x.com" "" none "F" "e@x.com" "" "p" wvs1 wvs2
      (by decide) (by decide)⟩

/-- Matching a literal against itself plus a remainder succeeds with
the remainder. -/
theorem stripLit_self (p r : List Char) : stripLit p (p ++ r) = some r := by
  induction p with
  | nil => rfl
  | cons c cs ih => simp [stripLit, ih]

/-- When no occurrence of the literal starts inside the prefix, the
search over the concatenation equals the search over the tail. -/
theorem searchLit_append (lit : List Char) (parse : List Char → Option String)
    (l1 l2 : List Char) (h : cleanBefore lit l1 l2 = true) :
    searchLit lit parse (l1 ++ l2) = searchLit lit parse l2 := by
  induction l1 with
  | nil => rfl
  | cons c cs ih =>
      simp only [cleanBefore, Bool.and_eq_true] at h
      simp only [List.cons_append, searchLit]
      cases hs : stripLit lit (c :: (cs ++ l2)) with
      | some rest => rw [hs] at h; simp at h
      | none => exact ih h.2

/-- When the text starts with the literal and the tail parser
succeeds there, the search returns that result. -/
theorem searchLit_head (lit : List Char) (parse : List Char → Option String)
    (rest : List Char) (r : String) (hne : lit ≠ [])
    (hp : parse rest = some r) :
    searchLit lit parse (lit ++ rest) = some r := by
  cases lit with
  | nil => exact absurd rfl hne
  | cons c cs =>
      simp only [List.cons_append, searchLit, List.append_eq]
      rw [show stripLit (c :: cs) (c :: (cs ++ rest)) = some rest from stripLit_self _ _]
      dsimp only
      rw [hp]

/-- Taking while a predicate holds stops exactly at the boundary
when the first part satisfies it throughout and the second part starts
with a failing character (or is empty). -/
theorem takeWhile_all_append (p : Char → Bool) (l1 l2 : List Char)
    (h1 : ∀ c ∈ l1, p c = true)
    (h2 : ∀ h t, l2 = h :: t → p h = false) :
    (l1 ++ l2).takeWhile p = l1 := by
  induction l1 with
  | nil =>
      cases l2 with
      | nil => rfl
      | cons h t => simp [List.takeWhile_cons, h2 h t rfl]
  | cons c cs ih =>
      rw [List.cons_append, List.takeWhile_cons, h1 c (List.mem_cons_self _ _)]
      simp only [if_true]
      rw [ih (fun x hx => h1 x (List.mem_cons_of_mem _ hx))]

/-- The durable-marker tail parser accepts a well-formed key — a
nonempty marker-char run, a colon, a nonempty marker-char run — followed
by a non-marker character or the end of the text, and captures the key. -/
theorem parseNewGroup_key (fgL cidL tail : List Char)
    (hfg : fgL ≠ []) (hfgc : ∀ c ∈ fgL, isMarkerChar c = true)
    (hcid : cidL ≠ []) (hcidc : ∀ c ∈ cidL, isMarkerChar c = true)
    (htail : ∀ h t, tail = h :: t → isMarkerChar h = false) :
    parseNewGroup (fgL ++ ':' :: (cidL ++ tail)) =
      some (String.mk (fgL ++ ':' :: cidL)) := by
  have hg : (fgL ++ ':' :: (cidL ++ tail)).takeWhile isMarkerChar = fgL :=
    takeWhile_all_append _ _ _ hfgc (fun h t ht => by cases ht; decide)
  have hc : (cidL ++ tail).takeWhile isMarkerChar = cidL :=
    takeWhile_all_append _ _ _ hcidc htail
  simp only [parseNewGroup, hg]
  rw [if_neg (by simpa using hfg)]
  rw [List.drop_left]
  simp only [hc]
  rw [if_neg (by simpa using hcid)]

/-- Strings with equal character data are equal. -/
theorem str_ext (s t : String) (h : s.data = t.data) : s = t := by
  cases s
  cases t
  exact congrArg String.mk (by simpa using h)

/-- Joining no parts yields the empty string. -/
theorem strJoin_nil : strJoin [] = "" := rfl

/-- Joining distributes over list concatenation. -/
theorem strJoin_append (a b : List String) :
    strJoin (a ++ b) = strJoin a ++ strJoin b := by
  induction a with
  | nil => simp [strJoin]
  | cons x xs ih =>
      simp only [List.cons_append, strJoin, List.foldr_cons] at ih ⊢
      rw [ih, String.append_assoc]

/-- Joining one part yields that part. -/
theorem strJoin_single (m : String) : strJoin [m] = m := by
  simp [strJoin]

/-- Appending a blank line and a marker line to a nonempty lines
list appends a blank-line separator and the marker to the joined text. -/
theorem joinNl_append_marker (l : List String) (m : String) (h : l ≠ []) :
    joinNl (l ++ ["", m]) = joinNl l ++ "\n" ++ "" ++ "\n" ++ m := by
  induction l with
  | nil => exact absurd rfl h
  | cons x xs ih =>
      cases xs with
      | nil =>
          simp only [List.cons_append, List.nil_append, joinNl]
          apply str_ext
          simp [String.data_append]
      | cons y ys =>
          have ih2 := ih (by simp)
          simp only [List.cons_append, List.append_eq, joinNl] at ih2 ⊢
          rw [ih2]
          apply str_ext
          simp [String.data_append]

/-- The HTML note body with a conversion id is the marker-free body
followed by the hidden marker span. -/
theorem html_body_marker (msToDay : Int → String) (fn fg cid : String)
    (sub : Submission) (hcid : cid ≠ "") :
    (submission_to_note_html msToDay fn fg sub (some cid)).1 =
      (submission_to_note_html msToDay fn fg sub none).1 ++
        markerSpan (make_submission_key fg cid) := by
  rcases hE : extractCanonicalFieldsFromSubmission msToDay sub with ⟨c, r, pu, sd⟩
  simp only [submission_to_note_html, hE]
  rw [if_pos hcid]
  simp only [List.append_nil, strJoin_append, strJoin_single, strJoin_nil]

/-- The plain-text note body with a conversion id is the marker-free
body followed by a blank line and the marker line. -/
theorem text_body_marker (msToDay : Int → String) (fn fg cid : String)
    (sub : Submission) (hcid : cid ≠ "") :
    (submission_to_note_text msToDay fn fg sub (some cid)).1 =
      (submission_to_note_text msToDay fn fg sub none).1 ++ "\n" ++ "" ++ "\n" ++
        ("hs_form_submission_key=" ++ make_submission_key fg cid) := by
  rcases hE : extractCanonicalFieldsFromSubmission msToDay sub with ⟨c, r, pu, sd⟩
  simp only [submission_to_note_text, hE]
  rw [if_pos hcid]
  rw [joinNl_append_marker _ _ (by simp)]
  rw [List.append_nil]

/-- Character lists distribute over string concatenation. -/
theorem toList_append (a b : String) : (a ++ b).toList = a.toList ++ b.toList := by
  simp [String.toList]

/-- A concatenation with a nonempty right part is nonempty. -/
theorem append_ne_empty_of_right (a b : String) (h : b ≠ "") : a ++ b ≠ "" := by
  intro hc
  apply h
  apply str_ext
  have h2 := congrArg String.data hc
  rw [String.data_append] at h2
  rcases List.append_eq_nil.mp h2 with ⟨_, h3⟩
  rw [h3]

/-- A concatenation with a nonempty left part is nonempty. -/
theorem append_ne_empty_of_left (a b : String) (h : a ≠ "") : a ++ b ≠ "" := by
  intro hc
  apply h
  apply str_ext
  have h2 := congrArg String.data hc
  rw [String.data_append] at h2
  rcases List.append_eq_nil.mp h2 with ⟨h3, _⟩
  rw [h3]

/-- C3 (amended): for a form GUID and conversion id that are nonempty
strings over the marker character class `[0-9a-fA-F\-]` (which covers the
SHA-256 hex fallback ids), and when no occurrence of the marker literal
`hs_form_submission_key=` starts inside the body text before the appended
marker, extracting the marker from the HTML note body and from the
plain-text note body returns the original submission key. The original
claim holds for neither arbitrary conversion ids (characters outside the
class make the pattern fail) nor bodies whose field values inject the
marker literal (`c3_counterexample`). -/
theorem c3_marker_round_trip (msToDay : Int → String) (fn fg cid : String) (sub : Submission)
    (hfg : fg.toList ≠ [] ∧ ∀ c ∈ fg.toList, isMarkerChar c = true)
    (hcid : cid.toList ≠ [] ∧ ∀ c ∈ cid.toList, isMarkerChar c = true)
    (hch : cleanBefore markerLit
      ((submission_to_note_html msToDay fn fg sub none).1 ++ markerSpanHead).toList
      (markerLit ++ ((make_submission_key fg cid).toList ++ "</span>".toList)) = true)
    (hct : cleanBefore markerLit
      ((submission_to_note_text msToDay fn fg sub none).1 ++ "\n\n").toList
      (markerLit ++ (make_submission_key fg cid).toList) = true) :
    extract_marker_key (submission_to_note_html msToDay fn fg sub (some cid)).1 =
      some (make_submission_key fg cid) ∧
    extract_marker_key (submission_to_note_text msToDay fn fg sub (some cid)).1 =
      some (make_submission_key fg cid) := by
  have hcidne : cid ≠ "" := by
    intro h
    apply hcid.1
    rw [h]
    rfl
  have hclose : ∀ h t, ("</span>".toList : List Char) = h :: t →
      isMarkerChar h = false := by
    intro h t hht
    have h2 : ("</span>".toList : List Char) = '<' :: "/span>".toList := rfl
    rw [h2] at hht
    injection hht with hh _
    rw [← hh]
    decide
  have hmkkey : ∀ tail : List Char,
      (make_submission_key fg cid).toList ++ tail =
        fg.toList ++ ':' :: (cid.toList ++ tail) := by
    intro tail
    simp only [make_submission_key, toList_append, List.append_assoc]
    rfl
  have hmkeq : String.mk (fg.toList ++ ':' :: cid.toList) = make_submission_key fg cid := by
    apply str_ext
    simp only [make_submission_key, String.data_append, List.append_assoc]
    rfl
  have hparse : parseNewGroup ((make_submission_key fg cid).toList ++ "</span>".toList) =
      some (make_submission_key fg cid) := by
    rw [hmkkey]
    rw [parseNewGroup_key fg.toList cid.toList "</span>".toList hfg.1 hfg.2 hcid.1
      hcid.2 hclose]
    rw [hmkeq]
  have hparse2 : parseNewGroup ((make_submission_key fg cid).toList) =
      some (make_submission_key fg cid) := by
    rw [show (make_submission_key fg cid).toList =
        (make_submission_key fg cid).toList ++ [] from (List.append_nil _).symm]
    rw [hmkkey]
    rw [parseNewGroup_key fg.toList cid.toList [] hfg.1 hfg.2 hcid.1 hcid.2
      (fun h t ht => nomatch ht)]
    rw [hmkeq]
  constructor
  · rw [html_body_marker msToDay fn fg cid sub hcidne]
    have hne : (submission_to_note_html msToDay fn fg sub none).1 ++
        markerSpan (make_submission_key fg cid) ≠ "" := by
      apply append_ne_empty_of_right
      exact append_ne_empty_of_right _ _ (by decide)
    simp only [extract_marker_key, if_neg hne]
    have hsplit : ((submission_to_note_html msToDay fn fg sub none).1 ++
        markerSpan (make_submission_key fg cid)).toList =
        ((submission_to_note_html msToDay fn fg sub none).1 ++ markerSpanHead).toList ++
          (markerLit ++ ((make_submission_key fg cid).toList ++ "</span>".toList)) := by
      simp only [markerSpan, toList_append, List.append_assoc]
      rfl
    rw [hsplit]
    rw [searchLit_append _ _ _ _ hch]
    rw [searchLit_head markerLit parseNewGroup _ _ (by decide) hparse]
  · rw [text_body_marker msToDay fn fg cid sub hcidne]
    have hne : (submission_to_note_text msToDay fn fg sub none).1 ++ "\n" ++ "" ++ "\n" ++
        ("hs_form_submission_key=" ++ make_submission_key fg cid) ≠ "" := by
      apply append_ne_empty_of_right
      exact append_ne_empty_of_left _ _ (by decide)
    simp only [extract_marker_key, if_neg hne]
    have hsplit : ((submission_to_note_text msToDay fn fg sub none).1 ++ "\n" ++ "" ++ "\n" ++
        ("hs_form_submission_key=" ++ make_submission_key fg cid)).toList =
        ((submission_to_note_text msToDay fn fg sub none).1 ++ "\n\n").toList ++
          (markerLit ++ (make_submission_key fg cid).toList) := by
      simp only [toList_append, List.append_assoc]
      rfl
    rw [hsplit]
    rw [searchLit_append _ _ _ _ hct]
    rw [searchLit_head markerLit parseNewGroup _ _ (by decide) hparse2]

/-- C3 counterexample: a conversion id with characters outside the
marker character class (`zz`) makes extraction fail on both the HTML and
plain-text bodies, and a field value that injects the marker literal
makes extraction return the injected key instead of the real one —
refuting the unconditional round-trip. -/
theorem c3_counterexample :
    extract_marker_key (submission_to_note_html msZero "F" "aa" cexSub (some "zz")).1 ≠
      some (make_submission_key "aa" "zz") ∧
    extract_marker_key (submission_to_note_text msZero "F" "aa" cexSub (some "zz")).1 ≠
      some (make_submission_key "aa" "zz") ∧
    extract_marker_key (submission_to_note_html msZero "F" "aa" injSub (some "cc")).1 =
      some "aa:bb" ∧
    extract_marker_key (submission_to_note_html msZero "F" "aa" injSub (some "cc")).1 ≠
      some (make_submission_key "aa" "cc") := by
  refine ⟨by decide, by decide, by decide, by decide⟩

/-- C3 witness: a concrete form GUID, conversion id and submission
satisfy the hypotheses, and the amended round-trip theorem applies. -/
theorem c3_witness :
    (("aa" : String).toList ≠ [] ∧ ∀ c ∈ ("aa" : String).toList, isMarkerChar c = true) ∧
    (("bb" : String).toList ≠ [] ∧ ∀ c ∈ ("bb" : String).toList, isMarkerChar c = true) ∧
    cleanBefore markerLit
      ((submission_to_note_html msZero "F" "aa" cexSub none).1 ++ markerSpanHead).toList
      (markerLit ++ ((make_submission_key "aa" "bb").toList ++ "</span>".toList)) = true ∧
    cleanBefore markerLit
      ((submission_to_note_text msZero "F" "aa" cexSub none).1 ++ "\n\n").toList
      (markerLit ++ (make_submission_key "aa" "bb").toList) = true ∧
    (extract_marker_key (submission_to_note_html msZero "F" "aa" cexSub (some "bb")).1 =
        some (make_submission_key "aa" "bb") ∧
      extract_marker_key (submission_to_note_text msZero "F" "aa" cexSub (some "bb")).1 =
        some (make_submission_key "aa" "bb")) :=
  ⟨⟨by decide, by decide⟩, ⟨by decide, by decide⟩, by decide, by decide,
    c3_marker_round_trip msZero "F" "aa" "bb" cexSub ⟨by decide, by decide⟩ ⟨by decide, by decide⟩
      (by decide) (by decide)⟩
